import Mathlib

/-!
Access control system (OOPLab_10.cpp): shallow embedding and verified properties.

C++ `std::string` values are modelled as lists of characters, `int` values as
integers (with the 32-bit range made explicit where `stoi` checks it), and
exceptions as an error value carried by `Except`.
-/

/-- A `std::string`, as the sequence of its characters. -/
abbrev Str := List Char

/-- The exceptions thrown by the program, by C++ class (with the `what()` text
where the class carries a caller-supplied message). -/
inductive Err where
  | invalid_argument (what : String)
  | out_of_range (what : String)
  | runtime_error (what : String)
  | InvalidAccessLevelException
  | EmptyNameException
  deriving DecidableEq, Repr

deriving instance DecidableEq for Except

/-- Smallest value of a 32-bit `int`. -/
def INT_MIN : Int := -2147483648

/-- Largest value of a 32-bit `int`. -/
def INT_MAX : Int := 2147483647

/-- The value fits a C++ `int`. -/
def inIntRange (v : Int) : Prop := INT_MIN ≤ v ∧ v ≤ INT_MAX

instance (v : Int) : Decidable (inIntRange v) := by
  unfold inIntRange; exact inferInstance

/-! ## AccessLevel -/

/-- The enumeration `enum class AccessLevel`: a value of the underlying `int`. -/
structure AccessLevel where
  rank : Int
  deriving DecidableEq, Repr

/-- `AccessLevel::Student = 1`. -/
def AccessLevel.Student : AccessLevel := ⟨1⟩

/-- `AccessLevel::Teacher = 2`. -/
def AccessLevel.Teacher : AccessLevel := ⟨2⟩

/-- `AccessLevel::Administrator = 3`. -/
def AccessLevel.Administrator : AccessLevel := ⟨3⟩

/-- `AccessLevel fromInt(int val)`. -/
def fromInt (val : Int) : Except Err AccessLevel :=
  if val < 1 ∨ val > 3 then .error (.invalid_argument "Invalid access level int")
  else .ok ⟨val⟩

namespace Validation

/-- `Validation::checkName`. -/
def checkName (name : Str) : Except Err Unit :=
  if name.isEmpty then .error .EmptyNameException else .ok ()

/-- `Validation::checkAccessLevel`. -/
def checkAccessLevel (level : AccessLevel) : Except Err Unit :=
  if level.rank < AccessLevel.Student.rank ∨ level.rank > AccessLevel.Administrator.rank then
    .error .InvalidAccessLevelException
  else .ok ()

end Validation

/-! ## The string library functions the program calls -/

/-- The newline character. -/
def newline : Char := Char.ofNat 10

/-- `isspace` in the "C" locale: space, `\t`, `\n`, `\v`, `\f`, `\r`. -/
def isspace (c : Char) : Bool :=
  c.toNat = 32 || (9 ≤ c.toNat && c.toNat ≤ 13)

/-- `isdigit`: the characters `0` to `9`. -/
def isdigit (c : Char) : Bool :=
  48 ≤ c.toNat && c.toNat ≤ 57

/-- The character of a decimal digit. -/
def digitChar (d : Nat) : Char := Char.ofNat (48 + d)

/-- Decimal rendering of a natural number, most significant digit first
(`fuel` bounds the number of digits). -/
def natDigits : Nat → Nat → Str
  | 0, _ => []
  | fuel + 1, n =>
    if n < 10 then [digitChar n] else natDigits fuel (n / 10) ++ [digitChar (n % 10)]

/-- `std::to_string(int)`: decimal digits, with a leading `-` for a negative value. -/
def to_string (v : Int) : Str :=
  if v < 0 then '-' :: natDigits (v.natAbs + 1) v.natAbs
  else natDigits (v.natAbs + 1) v.natAbs

/-- The digit-accumulation loop of `strtol`: consumes leading digits. -/
def accDigits (acc : Nat) : Str → Nat
  | [] => acc
  | c :: cs => if isdigit c then accDigits (acc * 10 + (c.toNat - 48)) cs else acc

/-- `std::stoi(const string&)` in base 10: skips leading white space, reads an
optional sign and the longest run of digits, ignores what follows; throws
`invalid_argument` when there is no digit to convert and `out_of_range` when
the value does not fit an `int`. -/
def stoi (s : Str) : Except Err Int :=
  let s1 := s.dropWhile isspace
  let neg : Bool := match s1 with
    | c :: _ => c = '-'
    | [] => false
  let s2 : Str := match s1 with
    | c :: rest => if c = '-' ∨ c = '+' then rest else s1
    | [] => []
  match s2 with
  | [] => .error (.invalid_argument "stoi")
  | c :: _ =>
    if isdigit c then
      let n : Int := accDigits 0 s2
      let v : Int := if neg then -n else n
      if v < INT_MIN ∨ v > INT_MAX then .error (.out_of_range "stoi") else .ok v
    else .error (.invalid_argument "stoi")

/-- `std::getline(stream, token, delim)` on the unread part of a stream: fails
(`none`) when no character can be extracted, otherwise yields the characters up
to the first delimiter (or the end of the input) and the input left after the
delimiter. -/
def getline (input : Str) (delim : Char) : Option (Str × Str) :=
  match input with
  | [] => none
  | _ :: _ => some (input.takeWhile (· != delim), (input.dropWhile (· != delim)).drop 1)

/-- The loop `while (getline(ss, token, delim)) tokens.push_back(token);`. -/
def readTokens : Nat → Str → Char → List Str
  | 0, _, _ => []
  | fuel + 1, input, delim =>
    match getline input delim with
    | none => []
    | some (token, rest) => token :: readTokens fuel rest delim

/-- The tokens of a whole line: the loop run until `getline` fails (each
successful `getline` consumes at least one character). -/
def splitTokens (line : Str) (delim : Char) : List Str :=
  readTokens (line.length + 1) line delim

/-- Number of delimiter-separated fields of a line: one more than the number
of delimiters in it. -/
def fieldCount (line : Str) (delim : Char) : Nat :=
  line.count delim + 1

/-! ## Users -/

/-- The data members of `class User`. -/
structure UserBase where
  name : Str
  id : Int
  accessLevel : AccessLevel
  deriving DecidableEq, Repr

/-- A user object: one of the three concrete classes derived from `User`, with
its base members and its own string member. -/
inductive User where
  | Student (base : UserBase) (group : Str)
  | Teacher (base : UserBase) (department : Str)
  | Administrator (base : UserBase) (position : Str)
  deriving DecidableEq, Repr

/-- The constructor `User::User(name, id, level)`. -/
def UserBase.ctor (name : Str) (id : Int) (level : AccessLevel) : Except Err UserBase :=
  match Validation.checkName name with
  | .error e => .error e
  | .ok () =>
    match Validation.checkAccessLevel level with
    | .error e => .error e
    | .ok () => .ok { name := name, id := id, accessLevel := level }

/-- The constructor `Student::Student(name, id, group)`. -/
def Student.ctor (name : Str) (id : Int) (group : Str) : Except Err User :=
  match UserBase.ctor name id AccessLevel.Student with
  | .error e => .error e
  | .ok b => .ok (User.Student b group)

/-- The constructor `Teacher::Teacher(name, id, department)`. -/
def Teacher.ctor (name : Str) (id : Int) (department : Str) : Except Err User :=
  match UserBase.ctor name id AccessLevel.Teacher with
  | .error e => .error e
  | .ok b => .ok (User.Teacher b department)

/-- The constructor `Administrator::Administrator(name, id, position)`. -/
def Administrator.ctor (name : Str) (id : Int) (position : Str) : Except Err User :=
  match UserBase.ctor name id AccessLevel.Administrator with
  | .error e => .error e
  | .ok b => .ok (User.Administrator b position)

namespace User

/-- The base-class members of a user object. -/
def base : User → UserBase
  | Student b _ => b
  | Teacher b _ => b
  | Administrator b _ => b

/-- The derived class's own member: group, department or position. -/
def extra : User → Str
  | Student _ g => g
  | Teacher _ d => d
  | Administrator _ p => p

/-- Replaces the base-class members, keeping the dynamic type and its member. -/
def withBase : User → UserBase → User
  | Student _ g, b => Student b g
  | Teacher _ d, b => Teacher b d
  | Administrator _ p, b => Administrator b p

/-- `User::getName`. -/
def getName (u : User) : Str := u.base.name

/-- `User::getId`. -/
def getId (u : User) : Int := u.base.id

/-- `User::getAccessLevel`. -/
def getAccessLevel (u : User) : AccessLevel := u.base.accessLevel

/-- `User::setName`: the object after the call and the exception thrown, if any. -/
def setName (u : User) (newName : Str) : User × Except Err Unit :=
  match Validation.checkName newName with
  | .error e => (u, .error e)
  | .ok () => (u.withBase { u.base with name := newName }, .ok ())

/-- `User::setId`. -/
def setId (u : User) (newId : Int) : User :=
  u.withBase { u.base with id := newId }

/-- `User::setAccessLevel`: the object after the call and the exception thrown, if any. -/
def setAccessLevel (u : User) (level : AccessLevel) : User × Except Err Unit :=
  match Validation.checkAccessLevel level with
  | .error e => (u, .error e)
  | .ok () => (u.withBase { u.base with accessLevel := level }, .ok ())

/-- The overrides of `getType`. -/
def getType : User → Str
  | Student _ _ => "Student".toList
  | Teacher _ _ => "Teacher".toList
  | Administrator _ _ => "Administrator".toList

/-- The overrides of `serialize`. -/
def serialize : User → Str
  | Student b group =>
    "Student,".toList ++ b.name ++ ",".toList ++ to_string b.id ++ ",".toList
      ++ to_string b.accessLevel.rank ++ ",".toList ++ group
  | Teacher b department =>
    "Teacher,".toList ++ b.name ++ ",".toList ++ to_string b.id ++ ",".toList
      ++ to_string b.accessLevel.rank ++ ",".toList ++ department
  | Administrator b position =>
    "Administrator,".toList ++ b.name ++ ",".toList ++ to_string b.id ++ ",".toList
      ++ to_string b.accessLevel.rank ++ ",".toList ++ position

/-- `User::deserialize(line)`. -/
def deserialize (line : Str) : Except Err User :=
  match splitTokens line ',' with
  | type :: name :: idToken :: levelToken :: extra :: _ =>
    match stoi idToken with
    | .error e => .error e
    | .ok id =>
      match stoi levelToken with
      | .error e => .error e
      | .ok levelInt =>
        match fromInt levelInt with
        | .error e => .error e
        | .ok _ =>
          if type = "Student".toList then Student.ctor name id extra
          else if type = "Teacher".toList then Teacher.ctor name id extra
          else if type = "Administrator".toList then Administrator.ctor name id extra
          else .error (.invalid_argument "Unknown user type")
  | _ => .error (.invalid_argument "Invalid user format")

end User

/-! ## Resources -/

/-- `std::string::find(char)`: the position of the first occurrence, `none` for `npos`. -/
def find (s : Str) (c : Char) : Option Nat :=
  if c ∈ s then some (s.indexOf c) else none

/-- The data members of `class Resource`. -/
structure Resource where
  name : Str
  requiredAccess : AccessLevel
  deriving DecidableEq, Repr

namespace Resource

/-- The constructor `Resource::Resource(name, level)`. -/
def ctor (name : Str) (level : AccessLevel) : Except Err Resource :=
  match Validation.checkAccessLevel level with
  | .error e => .error e
  | .ok () => .ok { name := name, requiredAccess := level }

/-- `Resource::getName`. -/
def getName (r : Resource) : Str := r.name

/-- `Resource::getRequiredAccessLevel`. -/
def getRequiredAccessLevel (r : Resource) : AccessLevel := r.requiredAccess

/-- `Resource::checkAccess(user)`. -/
def checkAccess (r : Resource) (user : User) : Bool :=
  decide (user.getAccessLevel.rank ≥ r.requiredAccess.rank)

/-- `Resource::serialize`. -/
def serialize (r : Resource) : Str :=
  r.name ++ ",".toList ++ to_string r.requiredAccess.rank

/-- `Resource::deserialize(line)`. -/
def deserialize (line : Str) : Except Err Resource :=
  match find line ',' with
  | none => .error (.invalid_argument "Invalid resource format")
  | some pos =>
    let name := line.take pos
    match stoi (line.drop (pos + 1)) with
    | .error e => .error e
    | .ok level =>
      match fromInt level with
      | .error e => .error e
      | .ok lv => ctor name lv

end Resource

/-! ## The registry -/

/-- What `AccessControlSystem<T>` requires of its resource type `T`. -/
class ResourceLike (T : Type) where
  getName : T → Str
  checkAccess : T → User → Bool
  serialize : T → Str
  deserialize : Str → Except Err T

instance : ResourceLike Resource where
  getName := Resource.getName
  checkAccess := Resource.checkAccess
  serialize := Resource.serialize
  deserialize := Resource.deserialize

/-- The data members of `AccessControlSystem<T>`. -/
structure AccessControlSystem (T : Type) where
  users : List User
  resources : List T

namespace AccessControlSystem

variable {T : Type} [ResourceLike T]

/-- A freshly constructed registry. -/
def empty : AccessControlSystem T := { users := [], resources := [] }

/-- `AccessControlSystem::addUser`. -/
def addUser (sys : AccessControlSystem T) (user : User) : AccessControlSystem T :=
  { sys with users := sys.users ++ [user] }

/-- `AccessControlSystem::addResource`. -/
def addResource (sys : AccessControlSystem T) (resource : T) : AccessControlSystem T :=
  { sys with resources := sys.resources ++ [resource] }

/-- `AccessControlSystem::checkAccess(userId, resName)`. -/
def checkAccess (sys : AccessControlSystem T) (userId : Int) (resName : Str) : Bool :=
  let user := sys.users.find? (fun u => u.getId == userId)
  let res := sys.resources.find? (fun r => ResourceLike.getName r == resName)
  match user, res with
  | some u, some r => ResourceLike.checkAccess r u
  | _, _ => false

/-- `AccessControlSystem::findUserByName`. -/
def findUserByName (sys : AccessControlSystem T) (name : Str) : Option User :=
  sys.users.find? (fun u => u.getName == name)

/-- The text of the sentinel line. -/
def sentinel : Str := "RESOURCES".toList

/-- `AccessControlSystem::saveToFile`: the text written to the file, or the
failure to open it (`canOpen` is whether the output stream opens). -/
def saveToFile (sys : AccessControlSystem T) (canOpen : Bool) : Except Err Str :=
  if !canOpen then .error (.runtime_error "Can't open file!")
  else
    .ok ((sys.users.map (fun u => u.serialize ++ [newline])).flatten
      ++ (sentinel ++ [newline])
      ++ (sys.resources.map (fun r => ResourceLike.serialize r ++ [newline])).flatten)

/-- The `while (getline(in, line))` loop of `loadFromFile`, on the unread part
of the file; returns the registry as the loop leaves it and the exception
that ended it, if any. -/
def loadLoop : Nat → Str → AccessControlSystem T → Bool → AccessControlSystem T × Except Err Unit
  | 0, _, sys, _ => (sys, .ok ())
  | fuel + 1, input, sys, readingResources =>
    match getline input newline with
    | none => (sys, .ok ())
    | some (line, rest) =>
      if line.isEmpty then loadLoop fuel rest sys readingResources
      else if line = sentinel then loadLoop fuel rest sys true
      else if !readingResources then
        match User.deserialize line with
        | .error e => (sys, .error e)
        | .ok u => loadLoop fuel rest { sys with users := sys.users ++ [u] } readingResources
      else
        match (ResourceLike.deserialize line : Except Err T) with
        | .error e => (sys, .error e)
        | .ok r => loadLoop fuel rest { sys with resources := sys.resources ++ [r] } readingResources

/-- `AccessControlSystem::loadFromFile`: `file` is the text of the file, or
`none` when it cannot be opened. Returns the registry afterwards and the
exception thrown, if any. -/
def loadFromFile (sys : AccessControlSystem T) (file : Option Str) :
    AccessControlSystem T × Except Err Unit :=
  match file with
  | none => (sys, .error (.runtime_error "Can't open file!"))
  | some text => loadLoop (text.length + 1) text { users := [], resources := [] } false

end AccessControlSystem

/-! ## Conditions under which the text format is faithful -/

/-- The access level that the constructor of the user's class assigns. -/
def User.classLevel : User → AccessLevel
  | User.Student _ _ => AccessLevel.Student
  | User.Teacher _ _ => AccessLevel.Teacher
  | User.Administrator _ _ => AccessLevel.Administrator

/-- A user that the text format can carry: the object invariants (non-empty
name, id within `int`), no comma or newline in the name or in the class's own
member, that member non-empty, and the access level still the one assigned
at construction. -/
def User.storable (u : User) : Prop :=
  u.getName ≠ [] ∧ inIntRange u.getId ∧ ',' ∉ u.getName ∧ newline ∉ u.getName
    ∧ u.extra ≠ [] ∧ ',' ∉ u.extra ∧ newline ∉ u.extra ∧ u.getAccessLevel = u.classLevel

instance (u : User) : Decidable u.storable := by
  unfold User.storable; exact inferInstance

/-- A resource that the text format can carry: no comma or newline in the
name, and the object invariant that the required level has rank 1..3. -/
def Resource.storable (r : Resource) : Prop :=
  ',' ∉ r.name ∧ newline ∉ r.name ∧ 1 ≤ r.requiredAccess.rank ∧ r.requiredAccess.rank ≤ 3

instance (r : Resource) : Decidable r.storable := by
  unfold Resource.storable; exact inferInstance

/-- The two calls of `main`, `system.saveToFile("data.txt")` followed by
`loadedSystem.loadFromFile("data.txt")`, on a file that can be opened: the
loading registry afterwards and the exception thrown, if any. -/
def AccessControlSystem.saveThenLoad {T : Type} [ResourceLike T]
    (system loadedSystem : AccessControlSystem T) : AccessControlSystem T × Except Err Unit :=
  match system.saveToFile true with
  | .error e => (loadedSystem, .error e)
  | .ok text => loadedSystem.loadFromFile (some text)

/-! ## The demonstration values of `main` -/

/-- `Student("Ivan Petrov", 1, "CS-101")`. -/
def ivan : User := User.Student ⟨"Ivan Petrov".toList, 1, AccessLevel.Student⟩ "CS-101".toList

/-- `Teacher("Anna Volkova", 2, "Mathematics")`. -/
def anna : User := User.Teacher ⟨"Anna Volkova".toList, 2, AccessLevel.Teacher⟩ "Mathematics".toList

/-- `Administrator("Dr. Brown", 3, "Dean")`. -/
def drBrown : User :=
  User.Administrator ⟨"Dr. Brown".toList, 3, AccessLevel.Administrator⟩ "Dean".toList

/-- `Resource("Server Room", AccessLevel::Administrator)`. -/
def serverRoom : Resource := ⟨"Server Room".toList, AccessLevel.Administrator⟩

/-! ## The loading loop over lines, sorting, and reachable registries -/

deriving instance DecidableEq for AccessControlSystem

/-- The body of the `while (getline(in, line))` loop of `loadFromFile`, run
over the successive lines that `getline` yields. -/
def AccessControlSystem.loadLines {T : Type} [ResourceLike T] :
    List Str → AccessControlSystem T → Bool → AccessControlSystem T × Except Err Unit
  | [], sys, _ => (sys, .ok ())
  | line :: rest, sys, readingResources =>
    if line.isEmpty then loadLines rest sys readingResources
    else if line = AccessControlSystem.sentinel then loadLines rest sys true
    else if !readingResources then
      match User.deserialize line with
      | .error e => (sys, .error e)
      | .ok u => loadLines rest { sys with users := sys.users ++ [u] } readingResources
    else
      match (ResourceLike.deserialize line : Except Err T) with
      | .error e => (sys, .error e)
      | .ok r => loadLines rest { sys with resources := sys.resources ++ [r] } readingResources

/-- A record line of the file: neither empty nor the sentinel. -/
def AccessControlSystem.isRecord (line : Str) : Bool :=
  !line.isEmpty && decide (line ≠ AccessControlSystem.sentinel)

/-- The lines of a file that are read in user mode: the non-empty lines before
the first sentinel line. -/
def AccessControlSystem.userLines (lines : List Str) : List Str :=
  (lines.takeWhile (fun l => decide (l ≠ AccessControlSystem.sentinel))).filter
    (fun l => !l.isEmpty)

/-- The lines of a file that are read in resource mode: the record lines after
the first sentinel line. -/
def AccessControlSystem.resourceLines (lines : List Str) : List Str :=
  ((lines.dropWhile (fun l => decide (l ≠ AccessControlSystem.sentinel))).drop 1).filter
    AccessControlSystem.isRecord

/-- The requirement `Compare` on the comparator given to `std::sort`: a strict
weak ordering (irreflexive, transitive, with transitive incomparability). -/
def StrictWeakOrder {α : Type} (comp : α → α → Bool) : Prop :=
  (∀ a, comp a a = false)
  ∧ (∀ a b c, comp a b = true → comp b c = true → comp a c = true)
  ∧ (∀ a b c, (comp a b = false ∧ comp b a = false) → (comp b c = false ∧ comp c b = false) →
      (comp a c = false ∧ comp c a = false))

/-- The contract of `std::sort(first, last, comp)` for a comparator that is a
strict weak ordering: the range is rearranged (a permutation) so that no
element compares less than an element before it. The algorithm itself is
left open, as is the order of equivalent elements. -/
def StdSortContract (sort : (User → User → Bool) → List User → List User) : Prop :=
  ∀ (comp : User → User → Bool) (l : List User), StrictWeakOrder comp →
    (sort comp l).Perm l ∧ (sort comp l).Pairwise (fun a b => comp b a = false)

/-- One algorithm that meets the contract of `std::sort`: insertion sort. -/
def insertionSortBy (comp : User → User → Bool) (l : List User) : List User :=
  l.insertionSort (fun a b => comp b a = false)

/-- `AccessControlSystem::sortUsersBy(comp)`, for a given `std::sort`. -/
def AccessControlSystem.sortUsersBy {T : Type}
    (sort : (User → User → Bool) → List User → List User)
    (sys : AccessControlSystem T) (comp : User → User → Bool) : AccessControlSystem T :=
  { sys with users := sort comp sys.users }

/-- The comparator that `main` passes to `sortUsersBy`: ascending access level. -/
def byAccessLevel (a b : User) : Bool :=
  decide (a.getAccessLevel.rank < b.getAccessLevel.rank)

/-- The invariant of a user object: non-empty name, level of rank 1..3. -/
def User.valid (u : User) : Prop :=
  u.getName ≠ [] ∧ 1 ≤ u.getAccessLevel.rank ∧ u.getAccessLevel.rank ≤ 3

/-- The invariant of a resource object: required level of rank 1..3. -/
def Resource.valid (r : Resource) : Prop :=
  1 ≤ r.requiredAccess.rank ∧ r.requiredAccess.rank ≤ 3

/-- The user objects a caller can obtain: built by one of the three
constructors, then possibly changed through the setters. -/
inductive User.Constructed : User → Prop where
  | student (name : Str) (id : Int) (group : Str) (u : User) :
      Student.ctor name id group = .ok u → User.Constructed u
  | teacher (name : Str) (id : Int) (department : Str) (u : User) :
      Teacher.ctor name id department = .ok u → User.Constructed u
  | administrator (name : Str) (id : Int) (position : Str) (u : User) :
      Administrator.ctor name id position = .ok u → User.Constructed u
  | afterSetName (u : User) (newName : Str) :
      User.Constructed u → User.Constructed (u.setName newName).1
  | afterSetId (u : User) (newId : Int) :
      User.Constructed u → User.Constructed (u.setId newId)
  | afterSetAccessLevel (u : User) (level : AccessLevel) :
      User.Constructed u → User.Constructed (u.setAccessLevel level).1

/-- The registry states reachable from a fresh registry through the public
operations: `addUser`, `addResource`, `sortUsersBy` (with a comparator that
`std::sort` accepts), `loadFromFile` (whether it returns or throws), and the
setters called on a contained user. -/
inductive AccessControlSystem.Reachable
    (sort : (User → User → Bool) → List User → List User) :
    AccessControlSystem Resource → Prop where
  | fresh : Reachable sort AccessControlSystem.empty
  | afterAddUser (sys : AccessControlSystem Resource) (u : User) :
      Reachable sort sys → User.Constructed u → Reachable sort (sys.addUser u)
  | afterAddResource (sys : AccessControlSystem Resource) (name : Str) (level : AccessLevel)
      (r : Resource) :
      Reachable sort sys → Resource.ctor name level = .ok r → Reachable sort (sys.addResource r)
  | afterSort (sys : AccessControlSystem Resource) (comp : User → User → Bool) :
      Reachable sort sys → StrictWeakOrder comp → Reachable sort (sys.sortUsersBy sort comp)
  | afterLoad (sys : AccessControlSystem Resource) (file : Option Str) :
      Reachable sort sys → Reachable sort (sys.loadFromFile file).1
  | afterSetName (sys : AccessControlSystem Resource) (pre post : List User) (u : User)
      (newName : Str) :
      Reachable sort sys → sys.users = pre ++ u :: post →
      Reachable sort { sys with users := pre ++ (u.setName newName).1 :: post }
  | afterSetId (sys : AccessControlSystem Resource) (pre post : List User) (u : User)
      (newId : Int) :
      Reachable sort sys → sys.users = pre ++ u :: post →
      Reachable sort { sys with users := pre ++ u.setId newId :: post }
  | afterSetAccessLevel (sys : AccessControlSystem Resource) (pre post : List User) (u : User)
      (level : AccessLevel) :
      Reachable sort sys → sys.users = pre ++ u :: post →
      Reachable sort { sys with users := pre ++ (u.setAccessLevel level).1 :: post }

/-! ## The fixed-capacity inventory (OOPLab_4.cpp) -/

/-- The data members of `class Inventory`: the array `items` (as the list of
its `capacity` slots), `capacity` and `count`. The `size_t` members are
natural numbers; `count` never exceeds `capacity`, so it cannot wrap. -/
structure Inventory where
  items : List Str
  capacity : Nat
  count : Nat
  deriving DecidableEq, Repr

/-- The constructor `Inventory::Inventory(cap)`: `cap` empty strings, no item. -/
def Inventory.ctor (cap : Nat) : Inventory :=
  { items := List.replicate cap [], capacity := cap, count := 0 }

/-- `Inventory::addItem(item)` (the console messages are left out). -/
def Inventory.addItem (inv : Inventory) (item : Str) : Inventory :=
  if inv.count < inv.capacity then
    { inv with items := inv.items.set inv.count item, count := inv.count + 1 }
  else inv

/-- A sequence of `addItem` calls, in order. -/
def Inventory.addItems (inv : Inventory) (newItems : List Str) : Inventory :=
  newItems.foldl Inventory.addItem inv

/-- The inventory of `main` after its six `addItem` calls. -/
def mainInventory : Inventory :=
  (Inventory.ctor 5).addItems
    ["Sword".toList, "Shield".toList, "Health Potion".toList, "Mana Potion".toList,
      "Key".toList, "Extra Item".toList]

/-! ## The battle of the text RPG (OOPLab_9.cpp) -/

/-- Arithmetic on `int`: the result reduced to 32 bits, two's complement.
(Signed overflow is undefined in C++; this is what the usual targets compute.) -/
def wrapInt (v : Int) : Int :=
  (v + 2147483648) % 4294967296 - 2147483648

namespace RPG

/-- The exception thrown by `Character::attackEnemy`. -/
inductive GameErr where
  | logic_error (what : String)
  deriving DecidableEq, Repr

/-- The data members of `class Character` that the battle reads or writes
(the logger and the inventory are left out, as is all logging). -/
structure Character where
  name : Str
  health : Int
  maxHealth : Int
  attack : Int
  defense : Int
  level : Int
  experience : Int
  deriving DecidableEq, Repr

/-- The three concrete classes derived from `Monster`. -/
inductive MonsterKind where
  | Goblin
  | Skeleton
  | Dragon
  deriving DecidableEq, Repr

/-- A monster object: a `Character` of one of the three concrete classes. -/
structure Monster extends Character where
  kind : MonsterKind
  deriving DecidableEq, Repr

/-- The constructor `Character::Character(n, h, a, d, logger)`. -/
def Character.ctor (n : Str) (h a d : Int) : Character :=
  { name := n, health := h, maxHealth := h, attack := a, defense := d, level := 1,
    experience := 0 }

/-- The constructor `Goblin::Goblin`. -/
def Goblin.ctor : Monster :=
  { toCharacter := Character.ctor "Goblin".toList 30 8 2, kind := MonsterKind.Goblin }

/-- The constructor `Skeleton::Skeleton`. -/
def Skeleton.ctor : Monster :=
  { toCharacter := Character.ctor "Skeleton".toList 40 10 5, kind := MonsterKind.Skeleton }

/-- The constructor `Dragon::Dragon`. -/
def Dragon.ctor : Monster :=
  { toCharacter := Character.ctor "Dragon".toList 100 20 10, kind := MonsterKind.Dragon }

namespace Character

/-- `Character::isAlive`. -/
def isAlive (c : Character) : Bool := decide (c.health > 0)

/-- `Character::getDefense`. -/
def getDefense (c : Character) : Int := c.defense

/-- `Character::takeDamage(damage)`. -/
def takeDamage (c : Character) (damage : Int) : Character :=
  let h := wrapInt (c.health - damage)
  { c with health := if h < 0 then 0 else h }

/-- `Character::gainExperience(exp)`. -/
def gainExperience (c : Character) (exp : Int) : Character :=
  let e := wrapInt (c.experience + exp)
  if e ≥ 100 then
    { c with
      level := wrapInt (c.level + 1)
      experience := wrapInt (e - 100)
      maxHealth := wrapInt (c.maxHealth + 20)
      attack := wrapInt (c.attack + 5)
      defense := wrapInt (c.defense + 3)
      health := wrapInt (c.maxHealth + 20) }
  else { c with experience := e }

/-- `Character::attackEnemy(enemy)`: the attacker and the enemy afterwards, or
the exception thrown. -/
def attackEnemy (self enemy : Character) : Except GameErr (Character × Character) :=
  if !enemy.isAlive then .error (.logic_error "Cannot attack a dead enemy")
  else
    let damage := wrapInt (self.attack - enemy.getDefense)
    if damage > 0 then
      let enemy1 := enemy.takeDamage damage
      if !enemy1.isAlive then .ok (self.gainExperience 30, enemy1)
      else .ok (self, enemy1)
    else .ok (self, enemy)

end Character

/-- The bonus that the `specialAttack` override of each class adds. -/
def MonsterKind.bonus : MonsterKind → Int
  | MonsterKind.Goblin => 2
  | MonsterKind.Skeleton => 3
  | MonsterKind.Dragon => 5

/-- The overrides of `Monster::specialAttack(target)`: the target afterwards. -/
def Monster.specialAttack (m : Monster) (target : Character) : Character :=
  let damage := wrapInt (wrapInt (m.attack - target.getDefense) + m.kind.bonus)
  if damage > 0 then target.takeDamage damage else target

/-- The body of the loop of `battle`: hero and monster afterwards, and
whether the body was left by `break`. An exception is caught inside the
body, after which the loop goes on. -/
def battleRound (hero : Character) (monster : Monster) : Character × Monster × Bool :=
  match hero.attackEnemy monster.toCharacter with
  | .error _ => (hero, monster, false)
  | .ok (hero1, enemy1) =>
    let monster1 : Monster := { monster with toCharacter := enemy1 }
    if !monster1.isAlive then (hero1, monster1, true)
    else (monster1.specialAttack hero1, monster1, false)

/-- The function `battle(hero, monster)`: hero and monster when the loop
ends, `none` when it is still running after `fuel` iterations. -/
def battle : Nat → Character → Monster → Option (Character × Monster)
  | 0, hero, monster =>
    if hero.isAlive && monster.isAlive then none else some (hero, monster)
  | fuel + 1, hero, monster =>
    if hero.isAlive && monster.isAlive then
      if (battleRound hero monster).2.2 then
        some ((battleRound hero monster).1, (battleRound hero monster).2.1)
      else battle fuel (battleRound hero monster).1 (battleRound hero monster).2.1
    else some (hero, monster)

/-- Hero and monster when the loop condition is tested for the `n`-th time
after the first, `none` when the loop has ended before. -/
def afterRounds : Nat → Character → Monster → Option (Character × Monster)
  | 0, hero, monster => some (hero, monster)
  | n + 1, hero, monster =>
    if hero.isAlive && monster.isAlive then
      if (battleRound hero monster).2.2 then none
      else afterRounds n (battleRound hero monster).1 (battleRound hero monster).2.1
    else none

/-- The hero of `main`: `Character("Hero", 100, 15, 5, logger)`. -/
def mainHero : Character := Character.ctor "Hero".toList 100 15 5

/-- A hero as `loadGame` leaves it after reading the save file
`Hero 100 -100 15 5 1 70`: alive, with a negative `maxHealth`. -/
def loadedHero : Character :=
  { name := "Hero".toList, health := 100, maxHealth := -100, attack := 15, defense := 5,
    level := 1, experience := 70 }

/-- A hero as `loadGame` leaves it after reading the save file
`Hero 100 100 2147483647 5 1 0`: its attack is the largest `int`. -/
def strongHero : Character :=
  { name := "Hero".toList, health := 100, maxHealth := 100, attack := 2147483647, defense := 5,
    level := 1, experience := 0 }

/-- A Goblin as `loadGame` leaves it after reading the save file
`Goblin 30 30 0 -1 1 0`: no attack, defense -1. -/
def weakGoblin : Monster :=
  { toCharacter :=
      { name := "Goblin".toList, health := 30, maxHealth := 30, attack := 0, defense := -1,
        level := 1, experience := 0 },
    kind := MonsterKind.Goblin }

/-- What holds each time the loop of `battle` tests its condition, in a battle
that the hero's attack can decide: the healths are `int` values, the hero's
not negative and the monster's positive; the hero's attack exceeds the
monster's defense by an `int` value; and a level-up on the kill would not
restore a negative health. -/
def BattleInv (hero : Character) (monster : Monster) : Prop :=
  0 ≤ hero.health ∧ hero.health ≤ INT_MAX ∧ 0 < monster.health ∧ monster.health ≤ INT_MAX
    ∧ monster.defense < hero.attack ∧ hero.attack - monster.defense ≤ INT_MAX
    ∧ (100 ≤ wrapInt (hero.experience + 30) → 0 ≤ wrapInt (hero.maxHealth + 20))

end RPG

/-! ## AccessLevel and validation: properties -/

/-- C6: `fromInt v` succeeds exactly when `1 ≤ v ≤ 3`; a level it returns has
rank `v` (1 is Student, 2 is Teacher, 3 is Administrator); it fails for 0, for
4 and for every negative integer. -/
theorem fromInt_ok_iff (v : Int) :
    ((∃ l, fromInt v = .ok l) ↔ (1 ≤ v ∧ v ≤ 3))
    ∧ (∀ l, fromInt v = .ok l → l.rank = v)
    ∧ (fromInt 1 = .ok AccessLevel.Student ∧ fromInt 2 = .ok AccessLevel.Teacher
        ∧ fromInt 3 = .ok AccessLevel.Administrator)
    ∧ ((v < 0 ∨ v = 0 ∨ v = 4) → ∃ e, fromInt v = .error e) := by
  refine ⟨⟨?_, ?_⟩, ?_, ⟨by decide, by decide, by decide⟩, ?_⟩
  · rintro ⟨l, hl⟩
    unfold fromInt at hl
    split at hl
    · cases hl
    · omega
  · intro h
    refine ⟨⟨v⟩, ?_⟩
    unfold fromInt
    rw [if_neg (by omega)]
  · intro l hl
    unfold fromInt at hl
    split at hl
    · cases hl
    · cases hl; rfl
  · intro h
    refine ⟨.invalid_argument "Invalid access level int", ?_⟩
    unfold fromInt
    rw [if_pos (by omega)]

/-- Witness for C6 at the integers 2 and -5. -/
theorem fromInt_ok_iff_witness :
    (∃ l, fromInt 2 = .ok l) ∧ (∃ e, fromInt (-5) = .error e) :=
  ⟨(fromInt_ok_iff 2).1.2 (by decide), (fromInt_ok_iff (-5)).2.2.2 (by decide)⟩

/-- C7 as stated fails: for the out-of-range integer 0, `fromInt` throws
`invalid_argument`, which is not the `InvalidAccessLevelException` that
`Validation::checkAccessLevel` throws for the level of rank 0. -/
theorem fromInt_error_kind_counterexample :
    fromInt 0 = .error (.invalid_argument "Invalid access level int")
    ∧ Validation.checkAccessLevel ⟨0⟩ = .error .InvalidAccessLevelException
    ∧ fromInt 0 ≠ .error .InvalidAccessLevelException := by
  decide

/-- C7 amended: for every integer outside 1..3, `fromInt` fails with
`invalid_argument("Invalid access level int")`, a different exception from the
`InvalidAccessLevelException` that `checkAccessLevel` raises for a level of
that rank. -/
theorem fromInt_error_kind (v : Int) (h : v < 1 ∨ v > 3) :
    fromInt v = .error (.invalid_argument "Invalid access level int")
    ∧ Validation.checkAccessLevel ⟨v⟩ = .error .InvalidAccessLevelException
    ∧ fromInt v ≠ .error .InvalidAccessLevelException := by
  have h1 : fromInt v = .error (.invalid_argument "Invalid access level int") := by
    unfold fromInt
    rw [if_pos h]
  refine ⟨h1, ?_, ?_⟩
  · unfold Validation.checkAccessLevel
    rw [if_pos (by simpa [AccessLevel.Student, AccessLevel.Administrator] using h)]
  · rw [h1]
    intro hc
    cases hc

/-- Witness for the amended C7 at the integer 7. -/
theorem fromInt_error_kind_witness :
    fromInt 7 = .error (.invalid_argument "Invalid access level int")
    ∧ Validation.checkAccessLevel ⟨7⟩ = .error .InvalidAccessLevelException
    ∧ fromInt 7 ≠ .error .InvalidAccessLevelException :=
  fromInt_error_kind 7 (by decide)

/-! ## Access checks -/

/-- C4: `Resource::checkAccess(user)` is true exactly when the rank of the
user's access level is at least the rank of the resource's required level. -/
theorem Resource.checkAccess_iff (r : Resource) (user : User) :
    r.checkAccess user = true ↔ user.getAccessLevel.rank ≥ r.getRequiredAccessLevel.rank := by
  unfold Resource.checkAccess Resource.getRequiredAccessLevel
  exact decide_eq_true_iff

/-- A scan with `find_if` over a prefix without a match followed by a match
returns that match. -/
theorem find?_first_match {α : Type} (p : α → Bool) (pre post : List α) (a : α)
    (hpre : ∀ x ∈ pre, p x = false) (ha : p a = true) :
    (pre ++ a :: post).find? p = some a := by
  induction pre with
  | nil => simp [List.find?, ha]
  | cons x xs ih =>
    have hx : p x = false := hpre x (List.mem_cons_self x xs)
    have hxs : ∀ y ∈ xs, p y = false := fun y hy => hpre y (List.mem_cons_of_mem x hy)
    simp [List.find?, hx, ih hxs]

/-- A scan with `find_if` over a sequence without a match finds nothing. -/
theorem find?_no_match {α : Type} (p : α → Bool) (l : List α)
    (h : ∀ x ∈ l, p x = false) : l.find? p = none := by
  induction l with
  | nil => rfl
  | cons x xs ih =>
    have hx : p x = false := h x (List.mem_cons_self x xs)
    have hxs : ∀ y ∈ xs, p y = false := fun y hy => h y (List.mem_cons_of_mem x hy)
    simp [List.find?, hx, ih hxs]

/-- C3: `checkAccess(userId, resName)` is false when no user has the id or no
resource has the name; otherwise it is `resource.checkAccess(user)` for the
first user with the id and the first resource with the name. In the registry
of `main`, user 1 (a Student) is denied the Server Room and user 3 (an
Administrator) is granted it. -/
theorem AccessControlSystem.checkAccess_first_match {T : Type} [ResourceLike T]
    (sys : AccessControlSystem T) (userId : Int) (resName : Str) :
    (((∀ u ∈ sys.users, u.getId ≠ userId) ∨
        (∀ r ∈ sys.resources, ResourceLike.getName r ≠ resName)) →
      sys.checkAccess userId resName = false)
    ∧ (∀ (pre post : List User) (u : User) (rpre rpost : List T) (r : T),
        sys.users = pre ++ u :: post → (∀ x ∈ pre, x.getId ≠ userId) → u.getId = userId →
        sys.resources = rpre ++ r :: rpost →
        (∀ y ∈ rpre, ResourceLike.getName y ≠ resName) → ResourceLike.getName r = resName →
        sys.checkAccess userId resName = ResourceLike.checkAccess r u)
    ∧ (Student.ctor "Ivan Petrov".toList 1 "CS-101".toList = .ok ivan
        ∧ Administrator.ctor "Dr. Brown".toList 3 "Dean".toList = .ok drBrown
        ∧ Resource.ctor "Server Room".toList AccessLevel.Administrator = .ok serverRoom
        ∧ (((AccessControlSystem.empty.addUser ivan).addUser drBrown).addResource
              serverRoom).checkAccess 1 "Server Room".toList = false
        ∧ (((AccessControlSystem.empty.addUser ivan).addUser drBrown).addResource
              serverRoom).checkAccess 3 "Server Room".toList = true) := by
  refine ⟨?_, ?_, by decide⟩
  · rintro (h | h)
    · have hf : sys.users.find? (fun u => u.getId == userId) = none :=
        find?_no_match _ _ (fun x hx => by simpa using h x hx)
      simp [AccessControlSystem.checkAccess, hf]
    · have hf : sys.resources.find? (fun r => ResourceLike.getName r == resName) = none :=
        find?_no_match _ _ (fun x hx => by simpa using h x hx)
      unfold AccessControlSystem.checkAccess
      simp only [hf]
      split <;> simp_all
  · intro pre post u rpre rpost r hu hpre hid hr hrpre hname
    have hfu : sys.users.find? (fun u => u.getId == userId) = some u := by
      rw [hu]
      exact find?_first_match _ _ _ _ (fun x hx => by simpa using hpre x hx) (by simpa using hid)
    have hfr : sys.resources.find? (fun r => ResourceLike.getName r == resName) = some r := by
      rw [hr]
      exact find?_first_match _ _ _ _ (fun x hx => by simpa using hrpre x hx)
        (by simpa using hname)
    simp [AccessControlSystem.checkAccess, hfu, hfr]

/-- Witness for C3: a registry with two users of id 3, where the first one (a
Student) decides the check, and a lookup of an absent id. -/
theorem AccessControlSystem.checkAccess_first_match_witness :
    (AccessControlSystem.checkAccess
        ({ users := [ivan, drBrown], resources := [serverRoom] } : AccessControlSystem Resource)
        2 "Server Room".toList = false)
    ∧ (AccessControlSystem.checkAccess
        ({ users := [ivan, ivan.setId 3, drBrown], resources := [serverRoom] } :
          AccessControlSystem Resource)
        3 "Server Room".toList = serverRoom.checkAccess (ivan.setId 3)) :=
  ⟨(AccessControlSystem.checkAccess_first_match
      ({ users := [ivan, drBrown], resources := [serverRoom] } : AccessControlSystem Resource)
      2 "Server Room".toList).1 (Or.inl (by decide)),
   (AccessControlSystem.checkAccess_first_match
      ({ users := [ivan, ivan.setId 3, drBrown], resources := [serverRoom] } :
        AccessControlSystem Resource)
      3 "Server Room".toList).2.1 [ivan] [drBrown] (ivan.setId 3) [] [] serverRoom
      rfl (by decide) (by decide) rfl (by decide) (by decide)⟩

/-- Replacing one element that satisfies the predicate by another that does:
the scan either finds the same earlier element, or finds the replaced element
before and the replacement after. -/
theorem find?_substitute {α : Type} (p : α → Bool) (pre post : List α) (a b : α)
    (ha : p a = true) (hb : p b = true) :
    ((pre ++ a :: post).find? p = (pre ++ b :: post).find? p)
    ∨ ((pre ++ a :: post).find? p = some a ∧ (pre ++ b :: post).find? p = some b) := by
  induction pre with
  | nil => right; simp [List.find?, ha, hb]
  | cons x xs ih =>
    cases hx : p x with
    | true => left; simp [List.find?, hx]
    | false => simpa [List.find?, hx] using ih

/-- C5: `checkAccess` is monotonic in the user's rank. If the check succeeds
and a user with the looked-up id (in particular the matched, first such user)
is replaced by a user with the same id and a rank at least as high, the check
still succeeds. -/
theorem AccessControlSystem.checkAccess_monotone (pre post : List User) (u u2 : User)
    (resources : List Resource) (userId : Int) (resName : Str)
    (hu : u.getId = userId) (hu2 : u2.getId = userId)
    (hrank : u2.getAccessLevel.rank ≥ u.getAccessLevel.rank)
    (h : AccessControlSystem.checkAccess
          ({ users := pre ++ u :: post, resources := resources } : AccessControlSystem Resource)
          userId resName = true) :
    AccessControlSystem.checkAccess
      ({ users := pre ++ u2 :: post, resources := resources } : AccessControlSystem Resource)
      userId resName = true := by
  unfold AccessControlSystem.checkAccess at h ⊢
  simp only at h ⊢
  rcases find?_substitute (fun x : User => x.getId == userId) pre post u u2
      (by simpa using hu) (by simpa using hu2) with heq | ⟨h1, h2⟩
  · rw [← heq]; exact h
  · rw [h1] at h
    rw [h2]
    cases hr : resources.find? (fun r => ResourceLike.getName r == resName) with
    | none => rw [hr] at h; simp at h
    | some r =>
      rw [hr] at h
      simp only [ResourceLike.checkAccess, Resource.checkAccess, decide_eq_true_eq] at h ⊢
      omega

/-- Witness for C5: in the registry of `main`, the Teacher with id 2 is
replaced by an Administrator with id 2 and keeps access to the Lab. -/
theorem AccessControlSystem.checkAccess_monotone_witness :
    AccessControlSystem.checkAccess
      ({ users := [ivan] ++ drBrown.setId 2 :: [drBrown],
         resources := [⟨"Lab".toList, AccessLevel.Teacher⟩] } : AccessControlSystem Resource)
      2 "Lab".toList = true :=
  AccessControlSystem.checkAccess_monotone [ivan] [drBrown] anna (drBrown.setId 2)
    [⟨"Lab".toList, AccessLevel.Teacher⟩] 2 "Lab".toList
    (by decide) (by decide) (by decide) (by decide)

/-! ## Construction and renaming -/

/-- C8: for each of the three user classes, construction with an empty name
fails with `EmptyNameException` and construction with a non-empty name
succeeds; on any user `setName("")` fails with `EmptyNameException` and
leaves the object as it was, and `setName(s)` with `s` non-empty succeeds,
makes `getName()` return `s` and keeps id, level, type and own member. -/
theorem User.empty_name_rejected (name : Str) (id : Int) (extra : Str) (u : User) (s : Str) :
    (name = [] →
      Student.ctor name id extra = .error .EmptyNameException
      ∧ Teacher.ctor name id extra = .error .EmptyNameException
      ∧ Administrator.ctor name id extra = .error .EmptyNameException)
    ∧ (name ≠ [] →
      Student.ctor name id extra = .ok (User.Student ⟨name, id, AccessLevel.Student⟩ extra)
      ∧ Teacher.ctor name id extra = .ok (User.Teacher ⟨name, id, AccessLevel.Teacher⟩ extra)
      ∧ Administrator.ctor name id extra
          = .ok (User.Administrator ⟨name, id, AccessLevel.Administrator⟩ extra))
    ∧ u.setName [] = (u, .error .EmptyNameException)
    ∧ (s ≠ [] →
      (u.setName s).2 = .ok () ∧ (u.setName s).1.getName = s
      ∧ (u.setName s).1.getId = u.getId
      ∧ (u.setName s).1.getAccessLevel = u.getAccessLevel
      ∧ (u.setName s).1.getType = u.getType ∧ (u.setName s).1.extra = u.extra) := by
  refine ⟨?_, ?_, rfl, ?_⟩
  · intro h
    subst h
    exact ⟨rfl, rfl, rfl⟩
  · intro h
    obtain ⟨c, cs, rfl⟩ := List.exists_cons_of_ne_nil h
    exact ⟨rfl, rfl, rfl⟩
  · intro h
    obtain ⟨c, cs, rfl⟩ := List.exists_cons_of_ne_nil h
    cases u <;> exact ⟨rfl, rfl, rfl, rfl, rfl, rfl⟩

/-- Witness for C8: an empty and a non-empty name at construction, and a
rename of the Teacher of `main`. -/
theorem User.empty_name_rejected_witness :
    Student.ctor [] 5 "G".toList = .error .EmptyNameException
    ∧ Teacher.ctor "Eve".toList 5 "Physics".toList
        = .ok (User.Teacher ⟨"Eve".toList, 5, AccessLevel.Teacher⟩ "Physics".toList)
    ∧ (anna.setName "Anna K".toList).1.getName = "Anna K".toList :=
  ⟨((User.empty_name_rejected [] 5 "G".toList anna []).1 rfl).1,
   ((User.empty_name_rejected "Eve".toList 5 "Physics".toList anna []).2.1 (by decide)).2.1,
   ((User.empty_name_rejected [] 0 [] anna "Anna K".toList).2.2.2 (by decide)).2.1⟩

/-! ## Tokenizing -/

/-- Skipping to the first delimiter does not change the number of delimiters. -/
theorem count_dropWhile_ne (d : Char) (s : Str) :
    (s.dropWhile (· != d)).count d = s.count d := by
  induction s with
  | nil => rfl
  | cons c cs ih =>
    by_cases hc : c = d
    · subst hc; simp [List.dropWhile]
    · have hne : (c != d) = true := by simpa using hc
      rw [List.dropWhile_cons, if_pos hne, ih, List.count_cons_of_ne (fun h => hc h.symm)]

/-- What is left after skipping to the first delimiter is empty or starts with it. -/
theorem dropWhile_ne_cases (d : Char) (s : Str) :
    s.dropWhile (· != d) = [] ∨ ∃ r, s.dropWhile (· != d) = d :: r := by
  induction s with
  | nil => left; rfl
  | cons c cs ih =>
    by_cases hc : c = d
    · subst hc; right; exact ⟨cs, by simp [List.dropWhile]⟩
    · have hne : (c != d) = true := by simpa using hc
      rw [List.dropWhile_cons, if_pos hne]; exact ih

/-- The token loop on an exhausted stream yields nothing. -/
theorem readTokens_nil (fuel : Nat) (d : Char) : readTokens fuel [] d = [] := by
  cases fuel <;> rfl

/-- The token loop yields at most one token more than there are delimiters. -/
theorem readTokens_length_le (d : Char) (fuel : Nat) (s : Str) :
    (readTokens fuel s d).length ≤ s.count d + 1 := by
  induction fuel generalizing s with
  | zero => simp [readTokens]
  | succ n ih =>
    cases s with
    | nil => simp [readTokens, getline]
    | cons c cs =>
      simp only [readTokens, getline, List.length_cons]
      rcases dropWhile_ne_cases d (c :: cs) with h | ⟨r, h⟩
      · rw [h]; simp [readTokens_nil]
      · have hcount := count_dropWhile_ne d (c :: cs)
        rw [h] at hcount ⊢
        have := ih r
        simp only [List.drop_one, List.tail_cons]
        rw [List.count_cons_self] at hcount
        omega

/-- A line that yields fewer than five tokens is rejected as badly formatted. -/
theorem User.deserialize_of_few_tokens (line : Str)
    (h : (splitTokens line ',').length < 5) :
    User.deserialize line = .error (.invalid_argument "Invalid user format") := by
  unfold User.deserialize
  split
  · next heq => rw [heq] at h; simp at h; omega
  · rfl

/-- C9: a line with four or fewer comma-separated fields (at most three
commas) makes `User::deserialize` fail with `invalid_argument("Invalid user
format")`, whatever the fields contain. -/
theorem User.deserialize_few_fields (line : Str) (h : fieldCount line ',' ≤ 4) :
    User.deserialize line = .error (.invalid_argument "Invalid user format") := by
  apply User.deserialize_of_few_tokens
  have := readTokens_length_le ',' (line.length + 1) line
  unfold fieldCount at h
  unfold splitTokens
  omega

/-- Witness for C9: four fields with an unknown type and malformed numbers. -/
theorem User.deserialize_few_fields_witness :
    User.deserialize "Robot,Bob,x,y".toList = .error (.invalid_argument "Invalid user format") :=
  User.deserialize_few_fields "Robot,Bob,x,y".toList (by decide)

/-- The first token of a line is the text before its first delimiter. -/
theorem splitTokens_head (line : Str) (d : Char) (tok : Str) (rest : List Str)
    (h : splitTokens line d = tok :: rest) : tok = line.takeWhile (· != d) := by
  cases line with
  | nil => simp [splitTokens, readTokens, getline] at h
  | cons c cs =>
    simp only [splitTokens, readTokens, getline, List.cons.injEq] at h
    exact h.1.symm

/-- C10 as stated fails: lines whose type token is unknown but that are
rejected for another reason first (too few tokens, a non-numeric id, a level
out of range) do not fail with the unknown-type error. -/
theorem User.deserialize_unknown_type_counterexample :
    ("Robot,Bob,7,3".toList.takeWhile (· != ',') = "Robot".toList
      ∧ User.deserialize "Robot,Bob,7,3".toList
          = .error (.invalid_argument "Invalid user format")
      ∧ User.deserialize "Robot,Bob,7,3".toList
          ≠ .error (.invalid_argument "Unknown user type"))
    ∧ (User.deserialize "Robot,Bob,x,3,G".toList = .error (.invalid_argument "stoi")
      ∧ User.deserialize "Robot,Bob,x,3,G".toList
          ≠ .error (.invalid_argument "Unknown user type"))
    ∧ (User.deserialize "Robot,Bob,7,9,G".toList
          = .error (.invalid_argument "Invalid access level int")
      ∧ User.deserialize "Robot,Bob,7,9,G".toList
          ≠ .error (.invalid_argument "Unknown user type")) := by
  decide

/-- C10 amended: a line whose type token (the text before the first comma) is
none of `Student`, `Teacher`, `Administrator` never deserializes to a user,
and the error is that of the first check that fails: with fewer than five
tokens, `invalid_argument("Invalid user format")`; else, when the id token
does not convert, the error of `stoi` on it; else, when the level token does
not convert, the error of `stoi` on it; else, when the level is outside 1..3,
the error of `fromInt`, `invalid_argument("Invalid access level int")`; and
only when all of these pass, `invalid_argument("Unknown user type")`. -/
theorem User.deserialize_unknown_type (line : Str)
    (hS : line.takeWhile (· != ',') ≠ "Student".toList)
    (hT : line.takeWhile (· != ',') ≠ "Teacher".toList)
    (hA : line.takeWhile (· != ',') ≠ "Administrator".toList) :
    (∃ e, User.deserialize line = .error e)
    ∧ ((splitTokens line ',').length < 5 →
        User.deserialize line = .error (.invalid_argument "Invalid user format"))
    ∧ (∀ (ty name idTok lvTok extra : Str) (rest : List Str),
        splitTokens line ',' = ty :: name :: idTok :: lvTok :: extra :: rest →
        (∀ e, stoi idTok = .error e → User.deserialize line = .error e)
        ∧ (∀ id e, stoi idTok = .ok id → stoi lvTok = .error e →
            User.deserialize line = .error e)
        ∧ (∀ id lv e, stoi idTok = .ok id → stoi lvTok = .ok lv → fromInt lv = .error e →
            User.deserialize line = .error e)
        ∧ (∀ id lv, stoi idTok = .ok id → stoi lvTok = .ok lv → (lv < 1 ∨ lv > 3) →
            User.deserialize line = .error (.invalid_argument "Invalid access level int"))
        ∧ (∀ id lv, stoi idTok = .ok id → stoi lvTok = .ok lv → (1 ≤ lv ∧ lv ≤ 3) →
            User.deserialize line = .error (.invalid_argument "Unknown user type"))) := by
  refine ⟨?_, User.deserialize_of_few_tokens line, ?_⟩
  · unfold User.deserialize
    split
    · next ty name idTok lvTok extra rest heq =>
      have hty := splitTokens_head line ',' ty _ heq
      subst hty
      split
      · exact ⟨_, rfl⟩
      · split
        · exact ⟨_, rfl⟩
        · split
          · exact ⟨_, rfl⟩
          · rw [if_neg hS, if_neg hT, if_neg hA]
            exact ⟨_, rfl⟩
    · exact ⟨_, rfl⟩
  · intro ty name idTok lvTok extra rest hsplit
    have hty := splitTokens_head line ',' ty _ hsplit
    subst hty
    have hbad : ∀ lv, (lv < 1 ∨ lv > 3) →
        fromInt lv = .error (.invalid_argument "Invalid access level int") := by
      intro lv hlv
      unfold fromInt
      rw [if_pos hlv]
    have hgood : ∀ lv, (1 ≤ lv ∧ lv ≤ 3) → fromInt lv = .ok ⟨lv⟩ := by
      intro lv hlv
      unfold fromInt
      rw [if_neg (by omega)]
    refine ⟨?_, ?_, ?_, ?_, ?_⟩
    · intro e hid
      unfold User.deserialize
      rw [hsplit]
      simp only [hid]
    · intro id e hid hlv
      unfold User.deserialize
      rw [hsplit]
      simp only [hid, hlv]
    · intro id lv e hid hlv hfrom
      unfold User.deserialize
      rw [hsplit]
      simp only [hid, hlv, hfrom]
    · intro id lv hid hlv hrange
      unfold User.deserialize
      rw [hsplit]
      simp only [hid, hlv, hbad lv hrange]
    · intro id lv hid hlv hrange
      unfold User.deserialize
      rw [hsplit]
      simp only [hid, hlv, hgood lv hrange]
      rw [if_neg hS, if_neg hT, if_neg hA]

/-- Witness for the amended C10: lines of type `Robot` that fail at each of the
five checks in turn. -/
theorem User.deserialize_unknown_type_witness :
    User.deserialize "Robot,Bob,7,3".toList = .error (.invalid_argument "Invalid user format")
    ∧ User.deserialize "Robot,Bob,x,3,G".toList = .error (.invalid_argument "stoi")
    ∧ User.deserialize "Robot,Bob,7,99999999999,G".toList = .error (.out_of_range "stoi")
    ∧ User.deserialize "Robot,Bob,7,9,G".toList
        = .error (.invalid_argument "Invalid access level int")
    ∧ User.deserialize "Robot,Bob,7,3,G".toList
        = .error (.invalid_argument "Unknown user type") :=
  ⟨(User.deserialize_unknown_type "Robot,Bob,7,3".toList
      (by decide) (by decide) (by decide)).2.1 (by decide),
   ((User.deserialize_unknown_type "Robot,Bob,x,3,G".toList
      (by decide) (by decide) (by decide)).2.2
      "Robot".toList "Bob".toList "x".toList "3".toList "G".toList [] (by decide)).1
      _ (by decide),
   ((User.deserialize_unknown_type "Robot,Bob,7,99999999999,G".toList
      (by decide) (by decide) (by decide)).2.2
      "Robot".toList "Bob".toList "7".toList "99999999999".toList "G".toList []
      (by decide)).2.1 7 _ (by decide) (by decide),
   ((User.deserialize_unknown_type "Robot,Bob,7,9,G".toList
      (by decide) (by decide) (by decide)).2.2
      "Robot".toList "Bob".toList "7".toList "9".toList "G".toList []
      (by decide)).2.2.2.1 7 9 (by decide) (by decide) (by decide),
   ((User.deserialize_unknown_type "Robot,Bob,7,3,G".toList
      (by decide) (by decide) (by decide)).2.2
      "Robot".toList "Bob".toList "7".toList "3".toList "G".toList []
      (by decide)).2.2.2.2 7 3 (by decide) (by decide) (by decide)⟩

/-! ## Decimal conversion -/

/-- A decimal digit's character is a digit whose value is the digit. -/
theorem isdigit_digitChar (d : Nat) (h : d < 10) :
    isdigit (digitChar d) = true ∧ (digitChar d).toNat - 48 = d := by
  interval_cases d <;> decide

/-- A digit is none of the characters with a special role in the formats. -/
theorem isdigit_not_special (c : Char) (h : isdigit c = true) :
    c ≠ ',' ∧ c ≠ '-' ∧ c ≠ '+' ∧ c ≠ newline ∧ isspace c = false := by
  refine ⟨?_, ?_, ?_, ?_, ?_⟩
  · rintro rfl; exact absurd h (by decide)
  · rintro rfl; exact absurd h (by decide)
  · rintro rfl; exact absurd h (by decide)
  · rintro rfl; exact absurd h (by decide)
  · simp only [isdigit, Bool.and_eq_true, decide_eq_true_eq] at h
    simp only [isspace, Bool.or_eq_false_iff, decide_eq_false_iff_not, Bool.and_eq_false_iff]
    omega

/-- Every character of a decimal rendering is a digit. -/
theorem natDigits_isdigit (fuel n : Nat) (c : Char) (hc : c ∈ natDigits fuel n) :
    isdigit c = true := by
  induction fuel generalizing n with
  | zero => simp [natDigits] at hc
  | succ f ih =>
    unfold natDigits at hc
    split at hc
    · next hlt =>
      rw [List.mem_singleton] at hc
      subst hc
      exact (isdigit_digitChar n hlt).1
    · rw [List.mem_append, List.mem_singleton] at hc
      rcases hc with hc | hc
      · exact ih _ hc
      · subst hc
        exact (isdigit_digitChar _ (Nat.mod_lt _ (by decide))).1

/-- A decimal rendering has at least one digit. -/
theorem natDigits_ne_nil (fuel n : Nat) : natDigits (fuel + 1) n ≠ [] := by
  unfold natDigits
  split <;> simp

/-- The accumulation loop runs through a run of digits. -/
theorem accDigits_append (l r : Str) (acc : Nat) (hl : ∀ c ∈ l, isdigit c = true) :
    accDigits acc (l ++ r) = accDigits (accDigits acc l) r := by
  induction l generalizing acc with
  | nil => rfl
  | cons c cs ih =>
    have hc : isdigit c = true := hl c (List.mem_cons_self c cs)
    simp only [List.cons_append, accDigits, hc, if_true]
    exact ih _ (fun x hx => hl x (List.mem_cons_of_mem c hx))

/-- Reading back a decimal rendering gives the number. -/
theorem accDigits_natDigits (fuel n : Nat) (h : n < fuel) :
    accDigits 0 (natDigits fuel n) = n := by
  induction fuel generalizing n with
  | zero => omega
  | succ f ih =>
    unfold natDigits
    split
    · next hlt =>
      have hd := isdigit_digitChar n hlt
      simp [accDigits, hd.1, hd.2]
    · next hge =>
      have hd := isdigit_digitChar (n % 10) (Nat.mod_lt _ (by decide))
      rw [accDigits_append _ _ _ (natDigits_isdigit f (n / 10)), ih (n / 10) (by omega)]
      simp only [accDigits, hd.1, hd.2, if_true]
      omega

/-- The characters of `to_string v` are digits and possibly a minus sign. -/
theorem to_string_chars (v : Int) (c : Char) (hc : c ∈ to_string v) :
    c = '-' ∨ isdigit c = true := by
  unfold to_string at hc
  split at hc
  · rw [List.mem_cons] at hc
    rcases hc with hc | hc
    · exact Or.inl hc
    · exact Or.inr (natDigits_isdigit _ _ _ hc)
  · exact Or.inr (natDigits_isdigit _ _ _ hc)

/-- The text of `to_string v` contains no comma. -/
theorem comma_not_mem_to_string (v : Int) : ',' ∉ to_string v := by
  intro hc
  rcases to_string_chars v _ hc with h | h
  · exact absurd h (by decide)
  · exact absurd h (by decide)

/-- The text of `to_string v` contains no newline. -/
theorem newline_not_mem_to_string (v : Int) : newline ∉ to_string v := by
  intro hc
  rcases to_string_chars v _ hc with h | h
  · exact absurd h (by decide)
  · exact absurd h (by decide)

/-- The text of `to_string v` is not empty. -/
theorem to_string_ne_nil (v : Int) : to_string v ≠ [] := by
  unfold to_string
  split
  · simp
  · exact natDigits_ne_nil _ _

/-- `stoi` on a run of digits that starts the text. -/
theorem stoi_digits (c : Char) (cs : Str) (hc : isdigit c = true) :
    stoi (c :: cs) =
      if ((accDigits 0 (c :: cs) : Nat) : Int) < INT_MIN ∨ ((accDigits 0 (c :: cs) : Nat) : Int) > INT_MAX
      then .error (.out_of_range "stoi") else .ok ((accDigits 0 (c :: cs) : Nat) : Int) := by
  have hs := isdigit_not_special c hc
  simp [stoi, List.dropWhile, hs.2.2.2.2, hs.2.1, hs.2.2.1, hc]

/-- `stoi` on a minus sign followed by a run of digits. -/
theorem stoi_minus_digits (c : Char) (cs : Str) (hc : isdigit c = true) :
    stoi ('-' :: c :: cs) =
      if -((accDigits 0 (c :: cs) : Nat) : Int) < INT_MIN ∨ -((accDigits 0 (c :: cs) : Nat) : Int) > INT_MAX
      then .error (.out_of_range "stoi") else .ok (-((accDigits 0 (c :: cs) : Nat) : Int)) := by
  have hsp : isspace '-' = false := by decide
  simp [stoi, List.dropWhile, hsp, hc]

/-- `stoi(to_string(v))` is `v` for every `int` value. -/
theorem stoi_to_string (v : Int) (hv : inIntRange v) : stoi (to_string v) = .ok v := by
  obtain ⟨c, cs, hD⟩ := List.exists_cons_of_ne_nil (natDigits_ne_nil v.natAbs v.natAbs)
  have hc : isdigit c = true :=
    natDigits_isdigit (v.natAbs + 1) v.natAbs c (by rw [hD]; exact List.mem_cons_self c cs)
  have hacc : accDigits 0 (c :: cs) = v.natAbs := by
    rw [← hD]; exact accDigits_natDigits _ _ (Nat.lt_succ_self _)
  unfold inIntRange at hv
  unfold to_string
  split
  · next hneg =>
    rw [hD, stoi_minus_digits c cs hc, hacc]
    have : -((v.natAbs : Nat) : Int) = v := by omega
    rw [this, if_neg (by omega)]
  · next hpos =>
    rw [hD, stoi_digits c cs hc, hacc]
    have : ((v.natAbs : Nat) : Int) = v := by omega
    rw [this, if_neg (by omega)]

/-! ## `getline` and the token loop on delimited text -/

/-- Reading up to the first delimiter: the text before it, when it has none itself. -/
theorem takeWhile_ne_append (d : Char) (t rest : Str) (h : d ∉ t) :
    (t ++ d :: rest).takeWhile (· != d) = t := by
  induction t with
  | nil => simp [List.takeWhile]
  | cons c cs ih =>
    have hc : (c != d) = true := by
      simpa using fun hcd : c = d => h (hcd ▸ List.mem_cons_self c cs)
    rw [List.cons_append, List.takeWhile_cons, if_pos hc,
      ih (fun hm => h (List.mem_cons_of_mem c hm))]

/-- Skipping up to the first delimiter: the delimiter and what follows it. -/
theorem dropWhile_ne_append (d : Char) (t rest : Str) (h : d ∉ t) :
    (t ++ d :: rest).dropWhile (· != d) = d :: rest := by
  induction t with
  | nil => simp [List.dropWhile]
  | cons c cs ih =>
    have hc : (c != d) = true := by
      simpa using fun hcd : c = d => h (hcd ▸ List.mem_cons_self c cs)
    rw [List.cons_append, List.dropWhile_cons, if_pos hc,
      ih (fun hm => h (List.mem_cons_of_mem c hm))]

/-- `getline` on text that starts with a delimiter-free line and its delimiter. -/
theorem getline_line (d : Char) (t rest : Str) (h : d ∉ t) :
    getline (t ++ d :: rest) d = some (t, rest) := by
  have h1 := takeWhile_ne_append d t rest h
  have h2 := dropWhile_ne_append d t rest h
  cases hs : t ++ d :: rest with
  | nil => cases t <;> simp at hs
  | cons c cs =>
    rw [hs] at h1 h2
    simp only [getline, h1, h2, List.drop_one, List.tail_cons]

/-- `getline` on a last, unterminated and non-empty piece of text. -/
theorem getline_last (d : Char) (t : Str) (h : d ∉ t) (hne : t ≠ []) :
    getline t d = some (t, []) := by
  have h1 : t.takeWhile (· != d) = t := by
    rw [List.takeWhile_eq_self_iff]
    intro c hc
    simpa using fun hcd : c = d => h (hcd ▸ hc)
  have h2 : t.dropWhile (· != d) = [] := by
    rw [List.dropWhile_eq_nil_iff]
    intro c hc
    simpa using fun hcd : c = d => h (hcd ▸ hc)
  obtain ⟨c, cs, rfl⟩ := List.exists_cons_of_ne_nil hne
  simp only [getline, h1, h2, List.drop_nil]

/-- A successful `getline` consumes at least one character. -/
theorem getline_rest_length (s : Str) (d : Char) (tok rest : Str)
    (h : getline s d = some (tok, rest)) : rest.length < s.length := by
  cases s with
  | nil => simp [getline] at h
  | cons c cs =>
    simp only [getline, Option.some.injEq, Prod.mk.injEq] at h
    have hle := (List.dropWhile_sublist (fun x => x != d) (l := c :: cs)).length_le
    rw [← h.2, List.length_drop]
    rcases dropWhile_ne_cases d (c :: cs) with h0 | ⟨r, h0⟩
    · rw [h0]; simp
    · rw [h0] at hle ⊢
      simp only [List.length_cons] at hle ⊢
      omega

/-- The token loop does not depend on the fuel once it exceeds the input length. -/
theorem readTokens_fuel (d : Char) (f1 f2 : Nat) (s : Str)
    (h1 : s.length < f1) (h2 : s.length < f2) : readTokens f1 s d = readTokens f2 s d := by
  induction f1 generalizing f2 s with
  | zero => omega
  | succ n ih =>
    cases f2 with
    | zero => omega
    | succ m =>
      simp only [readTokens]
      cases hg : getline s d with
      | none => rfl
      | some p =>
        obtain ⟨tok, rest⟩ := p
        have hlt := getline_rest_length s d tok rest hg
        simp only
        rw [ih m rest (by omega) (by omega)]

/-- The tokens of a delimiter-free piece followed by a delimiter and more text. -/
theorem splitTokens_cons (d : Char) (t rest : Str) (h : d ∉ t) :
    splitTokens (t ++ d :: rest) d = t :: splitTokens rest d := by
  unfold splitTokens
  rw [readTokens, getline_line d t rest h]
  show t :: readTokens (t ++ d :: rest).length rest d = t :: readTokens (rest.length + 1) rest d
  rw [readTokens_fuel d (t ++ d :: rest).length (rest.length + 1) rest
    (by rw [List.length_append, List.length_cons]; omega) (by omega)]

/-- The tokens of a last, delimiter-free and non-empty piece. -/
theorem splitTokens_last (d : Char) (t : Str) (h : d ∉ t) (hne : t ≠ []) :
    splitTokens t d = [t] := by
  unfold splitTokens
  simp only [readTokens, getline_last d t h hne, readTokens_nil]

/-! ## The serialized form of a user -/

/-- The five comma-joined fields of a serialized user. -/
theorem User.serialize_fields (u : User) :
    u.serialize = u.getType ++ ',' :: (u.getName ++ ',' :: (to_string u.getId ++ ','
      :: (to_string u.getAccessLevel.rank ++ ',' :: u.extra))) := by
  have hS : "Student,".toList = "Student".toList ++ [','] := by decide
  have hT : "Teacher,".toList = "Teacher".toList ++ [','] := by decide
  have hA : "Administrator,".toList = "Administrator".toList ++ [','] := by decide
  have hc : ",".toList = [','] := by decide
  cases u <;>
    simp only [User.serialize, User.getType, User.getName, User.getId, User.getAccessLevel,
      User.base, User.extra, hS, hT, hA, hc, List.append_assoc, List.singleton_append,
      List.cons_append, List.nil_append]

/-- The type name of a user contains no comma. -/
theorem User.comma_not_mem_getType (u : User) : ',' ∉ u.getType := by
  cases u with
  | Student _ _ => exact (by decide : ',' ∉ "Student".toList)
  | Teacher _ _ => exact (by decide : ',' ∉ "Teacher".toList)
  | Administrator _ _ => exact (by decide : ',' ∉ "Administrator".toList)

/-- The level assigned by a class's constructor has rank 1, 2 or 3. -/
theorem User.classLevel_rank (u : User) : 1 ≤ u.classLevel.rank ∧ u.classLevel.rank ≤ 3 := by
  cases u <;>
    simp [User.classLevel, AccessLevel.Student, AccessLevel.Teacher, AccessLevel.Administrator]

/-- A rank in 1..3 fits an `int` and is accepted by `fromInt`. -/
theorem fromInt_of_valid (l : AccessLevel) (h : 1 ≤ l.rank ∧ l.rank ≤ 3) :
    inIntRange l.rank ∧ fromInt l.rank = .ok l := by
  constructor
  · unfold inIntRange INT_MIN INT_MAX; omega
  · unfold fromInt; rw [if_neg (by omega)]

/-- The tokens that the loop of `User::deserialize` reads from a serialized
user whose name and own member are free of commas, the latter non-empty. -/
theorem User.splitTokens_serialize (u : User) (hnc : ',' ∉ u.getName)
    (hne : u.extra ≠ []) (hec : ',' ∉ u.extra) :
    splitTokens u.serialize ','
      = [u.getType, u.getName, to_string u.getId, to_string u.getAccessLevel.rank, u.extra] := by
  rw [User.serialize_fields, splitTokens_cons _ _ _ u.comma_not_mem_getType,
    splitTokens_cons _ _ _ hnc, splitTokens_cons _ _ _ (comma_not_mem_to_string _),
    splitTokens_cons _ _ _ (comma_not_mem_to_string _), splitTokens_last _ _ hec hne]

/-- What `User::deserialize` does with a line of exactly five tokens whose id
and level tokens convert and whose level is in 1..3: it dispatches on the
type token to the constructor of that class. -/
theorem User.deserialize_five_tokens (line ty name idTok lvTok extra : Str) (id lv : Int)
    (htok : splitTokens line ',' = [ty, name, idTok, lvTok, extra])
    (hid : stoi idTok = .ok id) (hlv : stoi lvTok = .ok lv) (hrange : 1 ≤ lv ∧ lv ≤ 3) :
    User.deserialize line =
      if ty = "Student".toList then Student.ctor name id extra
      else if ty = "Teacher".toList then Teacher.ctor name id extra
      else if ty = "Administrator".toList then Administrator.ctor name id extra
      else .error (.invalid_argument "Unknown user type") := by
  have hfrom := (fromInt_of_valid ⟨lv⟩ hrange).2
  unfold User.deserialize
  rw [htok]
  simp only [hid, hlv, hfrom]

/-- Dispatching on a user's own type name, with its own name, id and member,
rebuilds the user when its name is non-empty and its level is the one that
the constructor of its class assigns. -/
theorem User.dispatch_own_fields (u : User) (hname : u.getName ≠ [])
    (hlevel : u.getAccessLevel = u.classLevel) :
    (if u.getType = "Student".toList then Student.ctor u.getName u.getId u.extra
      else if u.getType = "Teacher".toList then Teacher.ctor u.getName u.getId u.extra
      else if u.getType = "Administrator".toList then
        Administrator.ctor u.getName u.getId u.extra
      else .error (.invalid_argument "Unknown user type")) = .ok u := by
  obtain ⟨c, cs, hcs⟩ := List.exists_cons_of_ne_nil hname
  cases u with
  | Student b g =>
    obtain ⟨name, id, level⟩ := b
    simp only [User.getName, User.base] at hcs
    simp only [User.getAccessLevel, User.base, User.classLevel] at hlevel
    subst hcs hlevel
    rfl
  | Teacher b g =>
    obtain ⟨name, id, level⟩ := b
    simp only [User.getName, User.base] at hcs
    simp only [User.getAccessLevel, User.base, User.classLevel] at hlevel
    subst hcs hlevel
    rfl
  | Administrator b g =>
    obtain ⟨name, id, level⟩ := b
    simp only [User.getName, User.base] at hcs
    simp only [User.getAccessLevel, User.base, User.classLevel] at hlevel
    subst hcs hlevel
    rfl

/-- C1 as stated fails: a Student with an empty group, a Student whose name
contains a comma, a Student whose group contains a comma, and a Student whose
level was raised with `setAccessLevel` do not survive
`deserialize(serialize(u))`. -/
theorem User.deserialize_serialize_counterexample :
    (Student.ctor "A".toList 1 [] = .ok (User.Student ⟨"A".toList, 1, AccessLevel.Student⟩ [])
      ∧ User.deserialize (User.Student ⟨"A".toList, 1, AccessLevel.Student⟩ []).serialize
          = .error (.invalid_argument "Invalid user format"))
    ∧ User.deserialize (User.Student ⟨"a,b".toList, 1, AccessLevel.Student⟩ "G".toList).serialize
          = .error (.invalid_argument "stoi")
    ∧ User.deserialize (User.Student ⟨"A".toList, 1, AccessLevel.Student⟩ "x,y".toList).serialize
          = .ok (User.Student ⟨"A".toList, 1, AccessLevel.Student⟩ "x".toList)
    ∧ ((ivan.setAccessLevel AccessLevel.Administrator).2 = .ok ()
      ∧ (ivan.setAccessLevel AccessLevel.Administrator).1.getAccessLevel
          = AccessLevel.Administrator
      ∧ User.deserialize (ivan.setAccessLevel AccessLevel.Administrator).1.serialize = .ok ivan
      ∧ ivan.getAccessLevel = AccessLevel.Student) := by
  decide

/-- C1 amended: for a user of any of the three classes (non-empty name, id in
the `int` range) whose name contains no comma, whose own member
(group/department/position) is non-empty and contains no comma, and whose
access level is the one its class's constructor assigns,
`User::deserialize(u.serialize())` succeeds and returns a user equal to `u`:
same class, name, id, access level and own member. -/
theorem User.deserialize_serialize (u : User) (hname : u.getName ≠ [])
    (hid : inIntRange u.getId) (hnc : ',' ∉ u.getName) (hne : u.extra ≠ [])
    (hec : ',' ∉ u.extra) (hlevel : u.getAccessLevel = u.classLevel) :
    User.deserialize u.serialize = .ok u := by
  have hrank : 1 ≤ u.getAccessLevel.rank ∧ u.getAccessLevel.rank ≤ 3 := by
    rw [hlevel]; exact u.classLevel_rank
  have hlv : stoi (to_string u.getAccessLevel.rank) = .ok u.getAccessLevel.rank :=
    stoi_to_string _ (fromInt_of_valid _ hrank).1
  rw [User.deserialize_five_tokens u.serialize _ _ _ _ _ _ _
    (User.splitTokens_serialize u hnc hne hec) (stoi_to_string _ hid) hlv hrank]
  exact User.dispatch_own_fields u hname hlevel

/-- Witness for the amended C1: the three users of `main`. -/
theorem User.deserialize_serialize_witness :
    User.deserialize ivan.serialize = .ok ivan
    ∧ User.deserialize anna.serialize = .ok anna
    ∧ User.deserialize drBrown.serialize = .ok drBrown :=
  ⟨User.deserialize_serialize ivan (by decide) (by decide) (by decide) (by decide)
      (by decide) (by decide),
   User.deserialize_serialize anna (by decide) (by decide) (by decide) (by decide)
      (by decide) (by decide),
   User.deserialize_serialize drBrown (by decide) (by decide) (by decide) (by decide)
      (by decide) (by decide)⟩

/-! ## Resources in the text format -/

/-- `find` locates the first delimiter after a delimiter-free prefix. -/
theorem find_append (c : Char) (t rest : Str) (h : c ∉ t) :
    find (t ++ c :: rest) c = some t.length := by
  unfold find
  rw [if_pos (by simp)]
  congr 1
  induction t with
  | nil => simp
  | cons x xs ih =>
    have hx : x ≠ c := fun hxc => h (hxc ▸ List.mem_cons_self x xs)
    rw [List.cons_append, List.indexOf_cons_ne _ hx, ih (fun hm => h (List.mem_cons_of_mem x hm))]
    rfl

/-- Dropping a prefix and the delimiter after it leaves the rest. -/
theorem drop_past_delim (c : Char) (t rest : Str) :
    (t ++ c :: rest).drop (t.length + 1) = rest := by
  induction t with
  | nil => rfl
  | cons x xs _ => simp

/-- Taking as many characters as a prefix has gives the prefix. -/
theorem take_before_delim (c : Char) (t rest : Str) :
    (t ++ c :: rest).take t.length = t := by
  induction t with
  | nil => rfl
  | cons x xs _ => simp

/-- The two comma-joined fields of a serialized resource. -/
theorem Resource.serialize_name_level (r : Resource) :
    r.serialize = r.name ++ ',' :: to_string r.requiredAccess.rank := by
  have hc : ",".toList = [','] := by decide
  simp only [Resource.serialize, hc, List.append_assoc, List.singleton_append]

/-- `Resource::deserialize(r.serialize())` gives back a resource that the
format can carry. -/
theorem Resource.deserialize_own_serialize (r : Resource) (h : r.storable) :
    Resource.deserialize r.serialize = .ok r := by
  obtain ⟨hc, -, h1, h3⟩ := h
  have hrank := fromInt_of_valid r.requiredAccess ⟨h1, h3⟩
  have hcheck : Validation.checkAccessLevel r.requiredAccess = .ok () := by
    unfold Validation.checkAccessLevel
    rw [if_neg (by simp only [AccessLevel.Student, AccessLevel.Administrator]; omega)]
  unfold Resource.deserialize
  rw [Resource.serialize_name_level, find_append _ _ _ hc]
  simp only [take_before_delim, drop_past_delim, stoi_to_string _ hrank.1,
    hrank.2, Resource.ctor, hcheck]

/-! ## Lines of the saved file -/

/-- A serialized user has no newline when its name and own member have none. -/
theorem User.newline_not_mem_serialize (u : User) (hn : newline ∉ u.getName)
    (he : newline ∉ u.extra) : newline ∉ u.serialize := by
  have ht : newline ∉ u.getType := by
    cases u with
    | Student _ _ => exact (by decide : newline ∉ "Student".toList)
    | Teacher _ _ => exact (by decide : newline ∉ "Teacher".toList)
    | Administrator _ _ => exact (by decide : newline ∉ "Administrator".toList)
  have hne : newline ≠ ',' := by decide
  have h1 := newline_not_mem_to_string u.getId
  have h2 := newline_not_mem_to_string u.getAccessLevel.rank
  rw [User.serialize_fields]
  simp only [List.mem_append, List.mem_cons, not_or]
  exact ⟨ht, hne, hn, hne, h1, hne, h2, hne, he⟩

/-- A serialized user is neither blank nor the sentinel line. -/
theorem User.serialize_ne (u : User) :
    u.serialize ≠ [] ∧ u.serialize ≠ AccessControlSystem.sentinel := by
  have hmem : ',' ∈ u.serialize := by
    rw [User.serialize_fields]; simp
  constructor
  · intro h; rw [h] at hmem; simp at hmem
  · intro h; rw [h] at hmem; exact absurd hmem (by decide)

/-- A serialized resource has no newline when its name has none. -/
theorem Resource.serialize_no_newline (r : Resource) (hn : newline ∉ r.name) :
    newline ∉ r.serialize := by
  have hne : newline ≠ ',' := by decide
  have h2 := newline_not_mem_to_string r.requiredAccess.rank
  rw [Resource.serialize_name_level]
  simp only [List.mem_append, List.mem_cons, not_or]
  exact ⟨hn, hne, h2⟩

/-- A serialized resource is neither blank nor the sentinel line. -/
theorem Resource.serialize_not_blank (r : Resource) :
    r.serialize ≠ [] ∧ r.serialize ≠ AccessControlSystem.sentinel := by
  have hmem : ',' ∈ r.serialize := by
    rw [Resource.serialize_name_level]; simp
  constructor
  · intro h; rw [h] at hmem; simp at hmem
  · intro h; rw [h] at hmem; exact absurd hmem (by decide)

/-! ## The loading loop -/

namespace AccessControlSystem

variable {T : Type} [ResourceLike T]

/-- The loading loop does not depend on the fuel once it exceeds the input length. -/
theorem loadLoop_fuel (f1 f2 : Nat) (s : Str) (sys : AccessControlSystem T) (rr : Bool)
    (h1 : s.length < f1) (h2 : s.length < f2) : loadLoop f1 s sys rr = loadLoop f2 s sys rr := by
  induction f1 generalizing f2 s sys rr with
  | zero => omega
  | succ n ih =>
    cases f2 with
    | zero => omega
    | succ m =>
      simp only [loadLoop]
      cases hg : getline s newline with
      | none => rfl
      | some p =>
        obtain ⟨line, rest⟩ := p
        have hlt := getline_rest_length s newline line rest hg
        have key : ∀ (sys1 : AccessControlSystem T) (b : Bool),
            loadLoop n rest sys1 b = loadLoop m rest sys1 b :=
          fun sys1 b => ih m rest sys1 b (by omega) (by omega)
        simp only [key]

/-- The loading loop at the end of the input. -/
theorem loadLoop_nil (fuel : Nat) (sys : AccessControlSystem T) (rr : Bool) :
    loadLoop fuel [] sys rr = (sys, .ok ()) := by
  cases fuel <;> rfl

/-- One iteration of the loading loop on a line and its newline. -/
theorem loadLoop_line (fuel : Nat) (line rest : Str) (sys : AccessControlSystem T) (rr : Bool)
    (hnl : newline ∉ line) (hfuel : (line ++ newline :: rest).length < fuel) :
    loadLoop fuel (line ++ newline :: rest) sys rr =
      if line.isEmpty then loadLoop (rest.length + 1) rest sys rr
      else if line = sentinel then loadLoop (rest.length + 1) rest sys true
      else if !rr then
        match User.deserialize line with
        | .error e => (sys, .error e)
        | .ok u => loadLoop (rest.length + 1) rest { sys with users := sys.users ++ [u] } rr
      else
        match (ResourceLike.deserialize line : Except Err T) with
        | .error e => (sys, .error e)
        | .ok r =>
          loadLoop (rest.length + 1) rest { sys with resources := sys.resources ++ [r] } rr := by
  cases fuel with
  | zero => omega
  | succ n =>
    rw [List.length_append, List.length_cons] at hfuel
    have key : ∀ (sys1 : AccessControlSystem T) (b : Bool),
        loadLoop n rest sys1 b = loadLoop (rest.length + 1) rest sys1 b :=
      fun sys1 b => loadLoop_fuel n (rest.length + 1) rest sys1 b (by omega) (by omega)
    simp only [loadLoop, getline_line newline line rest hnl, key]

end AccessControlSystem

namespace AccessControlSystem

/-- The loading loop, in user mode, over the saved lines of storable users:
each line is parsed back to its user and appended. -/
theorem loadLoop_users (us : List User) (hus : ∀ u ∈ us, u.storable) (tail : Str)
    (sys : AccessControlSystem Resource) (fuel : Nat)
    (hfuel : ((us.map (fun u => u.serialize ++ [newline])).flatten ++ tail).length < fuel) :
    loadLoop fuel ((us.map (fun u => u.serialize ++ [newline])).flatten ++ tail) sys false
      = loadLoop (tail.length + 1) tail { sys with users := sys.users ++ us } false := by
  induction us generalizing sys fuel with
  | nil =>
    simp only [List.map_nil, List.flatten_nil, List.nil_append, List.append_nil] at hfuel ⊢
    exact loadLoop_fuel _ _ _ _ _ hfuel (by omega)
  | cons u us ih =>
    obtain ⟨hname, hid, hnc, hnn, hne, hec, hen, hlevel⟩ := hus u (List.mem_cons_self u us)
    have hrest : ∀ x ∈ us, x.storable := fun x hx => hus x (List.mem_cons_of_mem u hx)
    have hshape : ((u :: us).map (fun u => u.serialize ++ [newline])).flatten ++ tail
        = u.serialize ++ newline
            :: ((us.map (fun u => u.serialize ++ [newline])).flatten ++ tail) := by
      simp only [List.map_cons, List.flatten_cons, List.append_assoc, List.singleton_append,
        List.cons_append, List.nil_append]
    rw [hshape] at hfuel ⊢
    rw [loadLoop_line fuel _ _ sys false (u.newline_not_mem_serialize hnn hen) hfuel]
    have hne1 : u.serialize.isEmpty = false := by
      cases hs : u.serialize with
      | nil => exact absurd hs u.serialize_ne.1
      | cons _ _ => rfl
    have hrank : 1 ≤ u.getAccessLevel.rank ∧ u.getAccessLevel.rank ≤ 3 := by
      rw [hlevel]; exact u.classLevel_rank
    have hback : User.deserialize u.serialize = .ok u := by
      rw [User.deserialize_five_tokens u.serialize _ _ _ _ _ _ _
        (User.splitTokens_serialize u hnc hne hec) (stoi_to_string _ hid)
        (stoi_to_string _ (fromInt_of_valid _ hrank).1) hrank]
      exact User.dispatch_own_fields u hname hlevel
    rw [hne1, if_neg (by simp), if_neg u.serialize_ne.2, if_pos (by simp), hback]
    simp only
    rw [ih hrest _ _ (by omega)]
    simp only [List.append_assoc, List.singleton_append]

/-- The loading loop, in resource mode, over the saved lines of storable
resources up to the end of the file. -/
theorem loadLoop_resources (rs : List Resource) (hrs : ∀ r ∈ rs, r.storable)
    (sys : AccessControlSystem Resource) (fuel : Nat)
    (hfuel : ((rs.map (fun r => ResourceLike.serialize r ++ [newline])).flatten).length < fuel) :
    loadLoop fuel ((rs.map (fun r => ResourceLike.serialize r ++ [newline])).flatten) sys true
      = ({ sys with resources := sys.resources ++ rs }, .ok ()) := by
  induction rs generalizing sys fuel with
  | nil =>
    simp only [List.map_nil, List.flatten_nil, List.append_nil]
    exact loadLoop_nil _ _ _
  | cons r rs ih =>
    have hr := hrs r (List.mem_cons_self r rs)
    have hrest : ∀ x ∈ rs, x.storable := fun x hx => hrs x (List.mem_cons_of_mem r hx)
    have hshape : ((r :: rs).map (fun r => ResourceLike.serialize r ++ [newline])).flatten
        = r.serialize ++ newline
            :: ((rs.map (fun r => ResourceLike.serialize r ++ [newline])).flatten) := by
      simp only [List.map_cons, List.flatten_cons, List.append_assoc, List.singleton_append,
        List.cons_append, List.nil_append, ResourceLike.serialize]
    rw [hshape] at hfuel ⊢
    rw [loadLoop_line fuel _ _ sys true (r.serialize_no_newline hr.2.1) hfuel]
    have hne1 : r.serialize.isEmpty = false := by
      cases hs : r.serialize with
      | nil => exact absurd hs r.serialize_not_blank.1
      | cons _ _ => rfl
    have hde : (ResourceLike.deserialize r.serialize : Except Err Resource) = .ok r :=
      Resource.deserialize_own_serialize r hr
    rw [hne1, if_neg (by simp), if_neg r.serialize_not_blank.2, if_neg (by simp), hde]
    simp only
    rw [ih hrest _ _ (by omega)]
    simp only [List.append_assoc, List.singleton_append]

end AccessControlSystem

/-- C2 as stated fails: registries whose users or resources have a field with
a comma or a newline, an empty group, or a level changed after construction
are not reproduced by `saveToFile` followed by `loadFromFile`: the load
throws, or the serialized lines of what it loads differ from the original. -/
theorem AccessControlSystem.saveThenLoad_counterexample :
    (AccessControlSystem.saveThenLoad
        ({ users := [User.Student ⟨"A".toList, 1, AccessLevel.Student⟩ []], resources := [] } :
          AccessControlSystem Resource) AccessControlSystem.empty).2
      = .error (.invalid_argument "Invalid user format")
    ∧ (AccessControlSystem.saveThenLoad
        ({ users := [User.Student ⟨"a,b".toList, 1, AccessLevel.Student⟩ "G".toList],
           resources := [] } : AccessControlSystem Resource) AccessControlSystem.empty).2
      = .error (.invalid_argument "stoi")
    ∧ (AccessControlSystem.saveThenLoad
        ({ users := [User.Student ⟨['A', newline, 'B'], 1, AccessLevel.Student⟩ "G".toList],
           resources := [] } : AccessControlSystem Resource) AccessControlSystem.empty).2
      = .error (.invalid_argument "Invalid user format")
    ∧ ((AccessControlSystem.saveThenLoad
        ({ users := [User.Student ⟨"A".toList, 1, AccessLevel.Student⟩ "x,y".toList],
           resources := [] } : AccessControlSystem Resource)
          AccessControlSystem.empty).1.users.map User.serialize
        = ["Student,A,1,1,x".toList]
      ∧ (User.Student ⟨"A".toList, 1, AccessLevel.Student⟩ "x,y".toList).serialize
        = "Student,A,1,1,x,y".toList)
    ∧ (AccessControlSystem.saveThenLoad
        ({ users := [User.Student ⟨"A".toList, 1, AccessLevel.Student⟩ ['G', newline, 'H']],
           resources := [] } : AccessControlSystem Resource) AccessControlSystem.empty).2
      = .error (.invalid_argument "Invalid user format")
    ∧ ((AccessControlSystem.saveThenLoad
        ({ users := [(ivan.setAccessLevel AccessLevel.Administrator).1], resources := [] } :
          AccessControlSystem Resource) AccessControlSystem.empty).1.users.map User.serialize
        = ["Student,Ivan Petrov,1,1,CS-101".toList]
      ∧ (ivan.setAccessLevel AccessLevel.Administrator).1.serialize
        = "Student,Ivan Petrov,1,3,CS-101".toList)
    ∧ ((AccessControlSystem.saveThenLoad
        ({ users := [], resources := [⟨"a,2".toList, AccessLevel.Student⟩] } :
          AccessControlSystem Resource) AccessControlSystem.empty).1.resources.map
            Resource.serialize
        = ["a,2".toList]
      ∧ (⟨"a,2".toList, AccessLevel.Student⟩ : Resource).serialize = "a,2,1".toList)
    ∧ (AccessControlSystem.saveThenLoad
        ({ users := [], resources := [⟨['a', newline, 'b'], AccessLevel.Student⟩] } :
          AccessControlSystem Resource) AccessControlSystem.empty).2
      = .error (.invalid_argument "Invalid resource format") := by
  decide

/-- C2 amended: for every registry whose users and resources are storable (no
comma or newline in a user's name, own member or a resource's name; own
member non-empty; each user's level the one its class's constructor
assigns), `saveToFile` followed by `loadFromFile` of the written text, into a
fresh registry or any other, succeeds and yields a registry with the same
users and the same resources in the same order, hence with the same
sequences of serialized lines. -/
theorem AccessControlSystem.saveThenLoad_eq (sys loaded : AccessControlSystem Resource)
    (hu : ∀ u ∈ sys.users, u.storable) (hr : ∀ r ∈ sys.resources, r.storable) :
    sys.saveThenLoad loaded = (sys, .ok ())
    ∧ (sys.saveThenLoad loaded).1.users.map User.serialize = sys.users.map User.serialize
    ∧ (sys.saveThenLoad loaded).1.resources.map Resource.serialize
        = sys.resources.map Resource.serialize := by
  have hmain : sys.saveThenLoad loaded = (sys, .ok ()) := by
    have hs : AccessControlSystem.sentinel.isEmpty = false := by decide
    have hsn : newline ∉ AccessControlSystem.sentinel := by decide
    simp only [AccessControlSystem.saveThenLoad, AccessControlSystem.saveToFile,
      AccessControlSystem.loadFromFile, Bool.not_true, Bool.false_eq_true, if_false,
      List.append_assoc, List.singleton_append]
    rw [AccessControlSystem.loadLoop_users sys.users hu _ _ _ (Nat.lt_succ_self _),
      AccessControlSystem.loadLoop_line _ _ _ _ _ hsn (Nat.lt_succ_self _), hs,
      if_neg (by simp), if_pos rfl,
      AccessControlSystem.loadLoop_resources sys.resources hr _ _ (Nat.lt_succ_self _)]
    rfl
  rw [hmain]
  exact ⟨rfl, rfl, rfl⟩

/-- Witness for the amended C2: the registry of `main` (three users, three
resources) saved and loaded into a fresh registry. -/
theorem AccessControlSystem.saveThenLoad_eq_witness :
    AccessControlSystem.saveThenLoad
      ({ users := [ivan, anna, drBrown],
         resources := [⟨"Library".toList, AccessLevel.Student⟩,
           ⟨"Lab".toList, AccessLevel.Teacher⟩, serverRoom] } : AccessControlSystem Resource)
      AccessControlSystem.empty
    = ({ users := [ivan, anna, drBrown],
         resources := [⟨"Library".toList, AccessLevel.Student⟩,
           ⟨"Lab".toList, AccessLevel.Teacher⟩, serverRoom] }, .ok ()) :=
  (AccessControlSystem.saveThenLoad_eq
    ({ users := [ivan, anna, drBrown],
       resources := [⟨"Library".toList, AccessLevel.Student⟩,
         ⟨"Lab".toList, AccessLevel.Teacher⟩, serverRoom] } : AccessControlSystem Resource)
    AccessControlSystem.empty (by decide) (by decide)).1

/-! ## The loading loop as a pass over the lines of the file -/

namespace AccessControlSystem

variable {T : Type} [ResourceLike T]

/-- The loading loop on a text is the line-by-line pass over the lines that
the `getline` loop reads from it. -/
theorem loadLoop_eq_loadLines (fuel : Nat) (text : Str) (sys : AccessControlSystem T)
    (rr : Bool) : loadLoop fuel text sys rr = loadLines (readTokens fuel text newline) sys rr := by
  induction fuel generalizing text sys rr with
  | zero => rfl
  | succ n ih =>
    simp only [loadLoop, readTokens]
    cases hg : getline text newline with
    | none => rfl
    | some p =>
      obtain ⟨line, rest⟩ := p
      simp only [loadLines, ih]

/-- An empty line is not a record. -/
theorem isRecord_of_isEmpty (line : Str) (h : line.isEmpty = true) : isRecord line = false := by
  simp [isRecord, h]

/-- A line that is neither empty nor the sentinel is a record. -/
theorem isRecord_of_ne (line : Str) (h1 : line.isEmpty = false) (h2 : line ≠ sentinel) :
    isRecord line = true := by
  simp [isRecord, h1, h2]

/-- What a record line is. -/
theorem isRecord_iff (line : Str) :
    isRecord line = true ↔ line.isEmpty = false ∧ line ≠ sentinel := by
  simp [isRecord]

/-- The sentinel line is not empty. -/
theorem sentinel_isEmpty : sentinel.isEmpty = false := by decide

/-- No user line is read from the sentinel on. -/
theorem userLines_sentinel (rest : List Str) : userLines (sentinel :: rest) = [] := by
  simp [userLines, List.takeWhile]

/-- After a leading sentinel, the resource lines are the records that follow. -/
theorem resourceLines_sentinel (rest : List Str) :
    resourceLines (sentinel :: rest) = rest.filter isRecord := by
  simp [resourceLines, List.dropWhile]

/-- A leading line other than the sentinel does not change the resource lines. -/
theorem resourceLines_cons_ne (line : Str) (rest : List Str) (h : line ≠ sentinel) :
    resourceLines (line :: rest) = resourceLines rest := by
  simp [resourceLines, List.dropWhile, h]

/-- A leading empty line is not a user line. -/
theorem userLines_cons_empty (line : Str) (rest : List Str) (h : line.isEmpty = true) :
    userLines (line :: rest) = userLines rest := by
  have hne : line ≠ sentinel := by
    intro hs; rw [hs, sentinel_isEmpty] at h; cases h
  simp [userLines, List.takeWhile, hne, h]

/-- A leading record line is the first user line. -/
theorem userLines_cons_record (line : Str) (rest : List Str) (h1 : line.isEmpty = false)
    (h2 : line ≠ sentinel) : userLines (line :: rest) = line :: userLines rest := by
  simp [userLines, List.takeWhile, h2, h1]

/-- In resource mode the pass never touches the users. -/
theorem loadLines_resource_mode_users (lines : List Str) (sys : AccessControlSystem T) :
    (loadLines lines sys true).1.users = sys.users := by
  induction lines generalizing sys with
  | nil => rfl
  | cons line rest ih =>
    simp only [loadLines, Bool.not_true, Bool.false_eq_true, if_false]
    split
    · exact ih sys
    · split
      · exact ih sys
      · split
        · rfl
        · rw [ih]

/-- A pass in resource mode that ends normally keeps the users and appends the
resources parsed from the record lines, in order. -/
theorem loadLines_resource_mode_ok (lines : List Str) (sys sys1 : AccessControlSystem T)
    (h : loadLines lines sys true = (sys1, .ok ())) :
    sys1.users = sys.users
    ∧ sys1.resources.map Except.ok
        = sys.resources.map Except.ok
          ++ (lines.filter isRecord).map (ResourceLike.deserialize : Str → Except Err T) := by
  induction lines generalizing sys with
  | nil =>
    simp only [loadLines, Prod.mk.injEq, and_true] at h
    subst h
    simp
  | cons line rest ih =>
    simp only [loadLines, Bool.not_true, Bool.false_eq_true, if_false] at h
    by_cases he : line.isEmpty = true
    · rw [if_pos he] at h
      rw [List.filter_cons_of_neg (by simp [isRecord_of_isEmpty line he])]
      exact ih sys h
    · have he1 : line.isEmpty = false := by simpa using he
      rw [if_neg he] at h
      by_cases hs : line = sentinel
      · rw [if_pos hs] at h
        rw [List.filter_cons_of_neg (by simp [isRecord, hs])]
        exact ih sys h
      · rw [if_neg hs] at h
        rw [List.filter_cons_of_pos (isRecord_of_ne line he1 hs)]
        cases hd : (ResourceLike.deserialize line : Except Err T) with
        | error e => rw [hd] at h; simp at h
        | ok r =>
          rw [hd] at h
          obtain ⟨h1, h2⟩ := ih _ h
          refine ⟨h1, ?_⟩
          rw [h2]
          simp [hd]

/-- A pass from the start of a file that ends normally appends the users
parsed from the user lines and the resources parsed from the resource lines,
in order. -/
theorem loadLines_user_mode_ok (lines : List Str) (sys sys1 : AccessControlSystem T)
    (h : loadLines lines sys false = (sys1, .ok ())) :
    sys1.users.map Except.ok
        = sys.users.map Except.ok ++ (userLines lines).map User.deserialize
    ∧ sys1.resources.map Except.ok
        = sys.resources.map Except.ok
          ++ (resourceLines lines).map (ResourceLike.deserialize : Str → Except Err T) := by
  induction lines generalizing sys with
  | nil =>
    simp only [loadLines, Prod.mk.injEq, and_true] at h
    subst h
    simp [userLines, resourceLines]
  | cons line rest ih =>
    simp only [loadLines, Bool.not_false, if_true] at h
    by_cases he : line.isEmpty = true
    · have hne : line ≠ sentinel := by
        intro hs; rw [hs, sentinel_isEmpty] at he; cases he
      rw [if_pos he] at h
      rw [userLines_cons_empty line rest he, resourceLines_cons_ne line rest hne]
      exact ih sys h
    · have he1 : line.isEmpty = false := by simpa using he
      rw [if_neg he] at h
      by_cases hs : line = sentinel
      · rw [if_pos hs] at h
        subst hs
        obtain ⟨h1, h2⟩ := loadLines_resource_mode_ok rest sys sys1 h
        rw [userLines_sentinel, resourceLines_sentinel, h1, h2]
        simp
      · rw [if_neg hs] at h
        rw [userLines_cons_record line rest he1 hs, resourceLines_cons_ne line rest hs]
        cases hd : User.deserialize line with
        | error e => rw [hd] at h; simp at h
        | ok u =>
          rw [hd] at h
          obtain ⟨h1, h2⟩ := ih _ h
          refine ⟨?_, h2⟩
          rw [h1]
          simp [hd]

end AccessControlSystem

/-- C11: when `loadFromFile` returns normally, the registry holds nothing of
what it held before: whatever the prior registry, its users are exactly the
results of `User::deserialize` on the non-empty lines before the first
`RESOURCES` line, in file order, and its resources exactly the results of
`T::deserialize` on the non-empty, non-sentinel lines after that first
sentinel, in file order. Once in resource mode the loop never changes the
users again, whatever the rest of the input. -/
theorem AccessControlSystem.loadFromFile_ok_contents {T : Type} [ResourceLike T]
    (sys sys1 : AccessControlSystem T) (text : Str)
    (h : sys.loadFromFile (some text) = (sys1, .ok ())) :
    sys1.users.map Except.ok
        = (AccessControlSystem.userLines (splitTokens text newline)).map User.deserialize
    ∧ sys1.resources.map Except.ok
        = (AccessControlSystem.resourceLines (splitTokens text newline)).map
            (ResourceLike.deserialize : Str → Except Err T)
    ∧ (∀ other : AccessControlSystem T, other.loadFromFile (some text) = (sys1, .ok ()))
    ∧ (∀ (fuel : Nat) (input : Str) (reg : AccessControlSystem T),
        (AccessControlSystem.loadLoop fuel input reg true).1.users = reg.users) := by
  simp only [AccessControlSystem.loadFromFile] at h
  have h0 := h
  rw [AccessControlSystem.loadLoop_eq_loadLines] at h
  obtain ⟨h1, h2⟩ := AccessControlSystem.loadLines_user_mode_ok _ _ _ h
  refine ⟨?_, ?_, ?_, ?_⟩
  · simpa [splitTokens] using h1
  · simpa [splitTokens] using h2
  · intro other
    simpa only [AccessControlSystem.loadFromFile] using h0
  · intro fuel input reg
    rw [AccessControlSystem.loadLoop_eq_loadLines]
    exact AccessControlSystem.loadLines_resource_mode_users _ _

/-- Witness for C11: a file with a blank line, one user, two sentinel lines and
one resource, loaded into the registry of another user. -/
theorem AccessControlSystem.loadFromFile_ok_contents_witness :
    [(Except.ok ivan : Except Err User)]
      = (AccessControlSystem.userLines
          (splitTokens "\nStudent,Ivan Petrov,1,1,CS-101\nRESOURCES\nRESOURCES\nLab,2\n".toList
            newline)).map User.deserialize :=
  (AccessControlSystem.loadFromFile_ok_contents
    ({ users := [anna], resources := [serverRoom] } : AccessControlSystem Resource)
    { users := [ivan], resources := [⟨"Lab".toList, AccessLevel.Teacher⟩] }
    "\nStudent,Ivan Petrov,1,1,CS-101\nRESOURCES\nRESOURCES\nLab,2\n".toList (by decide)).1

namespace AccessControlSystem

variable {T : Type} [ResourceLike T]

/-- A list of results that are all successes, read back from its head. -/
theorem map_ok_cons_inv {α : Type} (x : Except Err α) (xs : List (Except Err α)) (l : List α)
    (h : x :: xs = l.map Except.ok) : ∃ a l1, l = a :: l1 ∧ x = .ok a ∧ xs = l1.map Except.ok := by
  cases l with
  | nil => simp at h
  | cons a l1 =>
    simp only [List.map_cons, List.cons.injEq] at h
    exact ⟨a, l1, rfl, h.1, h.2⟩

/-- A pass in resource mode over lines whose records parse, followed by a
record that does not: the resources parsed so far are kept and the error of
the failing record ends the pass. -/
theorem loadLines_resource_mode_fail (pre post : List Str) (bad : Str) (e : Err)
    (rs : List T) (sys : AccessControlSystem T)
    (hrs : (pre.filter isRecord).map (ResourceLike.deserialize : Str → Except Err T)
            = rs.map Except.ok)
    (hbad : isRecord bad = true)
    (hfail : (ResourceLike.deserialize bad : Except Err T) = .error e) :
    loadLines (pre ++ bad :: post) sys true
      = ({ sys with resources := sys.resources ++ rs }, .error e) := by
  obtain ⟨hb1, hb2⟩ := (isRecord_iff bad).1 hbad
  induction pre generalizing sys rs with
  | nil =>
    have hnil : rs = [] := by
      cases rs with
      | nil => rfl
      | cons _ _ => simp at hrs
    subst hnil
    simp [loadLines, hb1, hb2, hfail]
  | cons line rest ih =>
    rw [List.cons_append]
    simp only [loadLines, Bool.not_true, Bool.false_eq_true, if_false]
    by_cases he : line.isEmpty = true
    · rw [if_pos he]
      rw [List.filter_cons_of_neg (by simp [isRecord_of_isEmpty line he])] at hrs
      exact ih rs sys hrs
    · have he1 : line.isEmpty = false := by simpa using he
      rw [if_neg he]
      by_cases hs : line = sentinel
      · rw [if_pos hs]
        rw [List.filter_cons_of_neg (by simp [isRecord, hs])] at hrs
        exact ih rs sys hrs
      · rw [if_neg hs]
        rw [List.filter_cons_of_pos (isRecord_of_ne line he1 hs), List.map_cons] at hrs
        obtain ⟨r, rs1, hrs0, hr, hrest⟩ := map_ok_cons_inv _ _ _ hrs
        subst hrs0
        rw [hr]
        simp only
        rw [ih rs1 _ hrest]
        simp

/-- A pass from the start of a file over lines whose records parse, followed by
a record that does not parse in the mode reached: the users and resources
parsed so far are kept and the error of the failing record ends the pass. -/
theorem loadLines_user_mode_fail (pre post : List Str) (bad : Str) (e : Err)
    (us : List User) (rs : List T) (sys : AccessControlSystem T)
    (hus : (userLines pre).map User.deserialize = us.map Except.ok)
    (hrs : (resourceLines pre).map (ResourceLike.deserialize : Str → Except Err T)
            = rs.map Except.ok)
    (hbad : isRecord bad = true)
    (hfailU : sentinel ∉ pre → User.deserialize bad = .error e)
    (hfailR : sentinel ∈ pre → (ResourceLike.deserialize bad : Except Err T) = .error e) :
    loadLines (pre ++ bad :: post) sys false
      = ({ users := sys.users ++ us, resources := sys.resources ++ rs }, .error e) := by
  obtain ⟨hb1, hb2⟩ := (isRecord_iff bad).1 hbad
  induction pre generalizing sys us with
  | nil =>
    have hu : us = [] := by
      cases us with
      | nil => rfl
      | cons _ _ => simp [userLines] at hus
    have hr : rs = [] := by
      cases rs with
      | nil => rfl
      | cons _ _ => simp [resourceLines] at hrs
    subst hu hr
    simp [loadLines, hb1, hb2, hfailU (by simp)]
  | cons line rest ih =>
    rw [List.cons_append]
    simp only [loadLines, Bool.not_false, if_true]
    by_cases he : line.isEmpty = true
    · have hne : line ≠ sentinel := by
        intro hs; rw [hs, sentinel_isEmpty] at he; cases he
      rw [if_pos he]
      rw [userLines_cons_empty line rest he] at hus
      rw [resourceLines_cons_ne line rest hne] at hrs
      exact ih us sys hus hrs
        (fun hm => hfailU (by simpa [List.mem_cons, Ne.symm hne] using hm))
        (fun hm => hfailR (List.mem_cons_of_mem _ hm))
    · have he1 : line.isEmpty = false := by simpa using he
      rw [if_neg he]
      by_cases hs : line = sentinel
      · rw [if_pos hs]
        subst hs
        rw [userLines_sentinel] at hus
        rw [resourceLines_sentinel] at hrs
        have hu : us = [] := by
          cases us with
          | nil => rfl
          | cons _ _ => simp at hus
        subst hu
        rw [loadLines_resource_mode_fail rest post bad e rs sys hrs hbad
          (hfailR (List.mem_cons_self _ _))]
        simp
      · rw [if_neg hs]
        rw [userLines_cons_record line rest he1 hs, List.map_cons] at hus
        rw [resourceLines_cons_ne line rest hs] at hrs
        obtain ⟨u, us1, hus0, hu, hrest⟩ := map_ok_cons_inv _ _ _ hus
        subst hus0
        rw [hu]
        simp only
        rw [ih us1 _ hrest hrs
          (fun hm => hfailU (by simpa [List.mem_cons, Ne.symm hs] using hm))
          (fun hm => hfailR (List.mem_cons_of_mem _ hm))]
        simp

end AccessControlSystem

/-- C17: when the lines of the file are `pre`, then a record line `bad`, then
`post`, every record of `pre` parses (to the users `us` before the first
sentinel and the resources `rs` after it) and `bad` fails to parse in the
mode reached (as a user when `pre` has no sentinel, as a resource otherwise)
with error `e`, then `loadFromFile` throws `e` and leaves the registry with
exactly the users `us` and resources `rs`: nothing of the prior contents and
no record of `post`. -/
theorem AccessControlSystem.loadFromFile_failure {T : Type} [ResourceLike T]
    (sys : AccessControlSystem T) (text : Str) (pre post : List Str) (bad : Str) (e : Err)
    (us : List User) (rs : List T)
    (hlines : splitTokens text newline = pre ++ bad :: post)
    (hus : (AccessControlSystem.userLines pre).map User.deserialize = us.map Except.ok)
    (hrs : (AccessControlSystem.resourceLines pre).map
            (ResourceLike.deserialize : Str → Except Err T) = rs.map Except.ok)
    (hbad : AccessControlSystem.isRecord bad = true)
    (hfailU : AccessControlSystem.sentinel ∉ pre → User.deserialize bad = .error e)
    (hfailR : AccessControlSystem.sentinel ∈ pre →
      (ResourceLike.deserialize bad : Except Err T) = .error e) :
    sys.loadFromFile (some text) = ({ users := us, resources := rs }, .error e) := by
  simp only [AccessControlSystem.loadFromFile]
  rw [AccessControlSystem.loadLoop_eq_loadLines]
  have hl : readTokens (text.length + 1) text newline = pre ++ bad :: post := hlines
  rw [hl, AccessControlSystem.loadLines_user_mode_fail pre post bad e us rs _ hus hrs hbad
    hfailU hfailR]
  simp

/-- Witness for C17: the second user record has only four fields; the first
user is kept, the prior contents are gone, and the records after the failing
line (a third user, a resource) are not added. -/
theorem AccessControlSystem.loadFromFile_failure_witness :
    AccessControlSystem.loadFromFile
      ({ users := [anna], resources := [serverRoom] } : AccessControlSystem Resource)
      (some ("Student,Ivan Petrov,1,1,CS-101\nTeacher,Anna,2,2\n".toList
        ++ "Administrator,Dr. Brown,3,3,Dean\nRESOURCES\nLab,2\n".toList))
    = ({ users := [ivan], resources := [] }, .error (.invalid_argument "Invalid user format")) :=
  AccessControlSystem.loadFromFile_failure
    ({ users := [anna], resources := [serverRoom] } : AccessControlSystem Resource)
    ("Student,Ivan Petrov,1,1,CS-101\nTeacher,Anna,2,2\n".toList
        ++ "Administrator,Dr. Brown,3,3,Dean\nRESOURCES\nLab,2\n".toList)
    ["Student,Ivan Petrov,1,1,CS-101".toList]
    ["Administrator,Dr. Brown,3,3,Dean".toList, "RESOURCES".toList, "Lab,2".toList]
    "Teacher,Anna,2,2".toList (.invalid_argument "Invalid user format") [ivan] []
    (by decide) (by decide) (by decide) (by decide) (by decide) (by decide)

/-! ## The written file and the serialized forms -/

/-- Reading back, with the `getline` loop, lines that were each written with a
terminating delimiter gives the lines. -/
theorem splitTokens_flatten (d : Char) (lines : List Str) (h : ∀ l ∈ lines, d ∉ l) :
    splitTokens ((lines.map (fun l => l ++ [d])).flatten) d = lines := by
  induction lines with
  | nil => rfl
  | cons l ls ih =>
    have hl : d ∉ l := h l (List.mem_cons_self l ls)
    have hshape : (((l :: ls).map (fun l => l ++ [d])).flatten)
        = l ++ d :: ((ls.map (fun l => l ++ [d])).flatten) := by
      simp only [List.map_cons, List.flatten_cons, List.append_assoc, List.singleton_append]
    rw [hshape, splitTokens_cons d l _ hl, ih (fun x hx => h x (List.mem_cons_of_mem l hx))]

/-- C12: `saveToFile` writes the serialized line of each user in registry
order, then the line `RESOURCES`, then the serialized line of each resource in
registry order, each followed by one newline and nothing else; it throws
`runtime_error` when the file cannot be opened. When no serialized line
contains a newline, the lines of the written file are exactly those lines.
(`saveToFile` is a `const` member: it yields the text and has no registry to
return.) -/
theorem AccessControlSystem.saveToFile_text {T : Type} [ResourceLike T]
    (sys : AccessControlSystem T) :
    sys.saveToFile true
      = .ok (((sys.users.map User.serialize ++ ["RESOURCES".toList]
                ++ sys.resources.map ResourceLike.serialize).map
              (fun l => l ++ [newline])).flatten)
    ∧ sys.saveToFile false = .error (.runtime_error "Can't open file!")
    ∧ ((∀ l ∈ sys.users.map User.serialize ++ ["RESOURCES".toList]
            ++ sys.resources.map ResourceLike.serialize, newline ∉ l) →
        ∃ text, sys.saveToFile true = .ok text
          ∧ splitTokens text newline
            = sys.users.map User.serialize ++ ["RESOURCES".toList]
                ++ sys.resources.map ResourceLike.serialize) := by
  have h1 : sys.saveToFile true
      = .ok (((sys.users.map User.serialize ++ ["RESOURCES".toList]
                ++ sys.resources.map ResourceLike.serialize).map
              (fun l => l ++ [newline])).flatten) := by
    simp only [AccessControlSystem.saveToFile, AccessControlSystem.sentinel, Bool.not_true,
      Bool.false_eq_true, if_false, List.map_append, List.map_map, List.flatten_append,
      List.map_cons, List.map_nil, List.flatten_cons, List.flatten_nil, List.append_nil]
    rfl
  refine ⟨h1, rfl, ?_⟩
  intro hnl
  exact ⟨_, h1, splitTokens_flatten newline _ hnl⟩

/-- Witness for C12: the file written for one user and one resource. -/
theorem AccessControlSystem.saveToFile_text_witness :
    ∃ text, AccessControlSystem.saveToFile
        ({ users := [ivan], resources := [serverRoom] } : AccessControlSystem Resource) true
        = .ok text
      ∧ splitTokens text newline
        = ["Student,Ivan Petrov,1,1,CS-101".toList, "RESOURCES".toList,
            "Server Room,3".toList] :=
  (AccessControlSystem.saveToFile_text
    ({ users := [ivan], resources := [serverRoom] } : AccessControlSystem Resource)).2.2
    (by decide)

/-- C13: `serialize()` is the five comma-joined fields type, name, id, level
rank and own member: the type is the class name that `getType()` returns, the
id is rendered in decimal (`stoi` reads it back), the rank of a valid level
is rendered as `1`, `2` or `3`, and the last field is the group, department
or position. -/
theorem User.serialize_format (u : User) :
    u.serialize
      = u.getType ++ ",".toList ++ u.getName ++ ",".toList ++ to_string u.getId ++ ",".toList
          ++ to_string u.getAccessLevel.rank ++ ",".toList ++ u.extra
    ∧ (u.getType = "Student".toList ∨ u.getType = "Teacher".toList
        ∨ u.getType = "Administrator".toList)
    ∧ (inIntRange u.getId → stoi (to_string u.getId) = .ok u.getId)
    ∧ (1 ≤ u.getAccessLevel.rank ∧ u.getAccessLevel.rank ≤ 3 →
        to_string u.getAccessLevel.rank = "1".toList
        ∨ to_string u.getAccessLevel.rank = "2".toList
        ∨ to_string u.getAccessLevel.rank = "3".toList)
    ∧ ivan.serialize = "Student,Ivan Petrov,1,1,CS-101".toList
    ∧ anna.serialize = "Teacher,Anna Volkova,2,2,Mathematics".toList
    ∧ drBrown.serialize = "Administrator,Dr. Brown,3,3,Dean".toList := by
  refine ⟨?_, ?_, stoi_to_string _, ?_, by decide, by decide, by decide⟩
  · have hc : ",".toList = [','] := by decide
    rw [User.serialize_fields, hc]
    simp only [List.append_assoc, List.singleton_append, List.cons_append, List.nil_append]
  · cases u
    · exact Or.inl rfl
    · exact Or.inr (Or.inl rfl)
    · exact Or.inr (Or.inr rfl)
  · intro h
    have h3 : u.getAccessLevel.rank = 1 ∨ u.getAccessLevel.rank = 2
        ∨ u.getAccessLevel.rank = 3 := by omega
    rcases h3 with h3 | h3 | h3
    · left; rw [h3]; decide
    · right; left; rw [h3]; decide
    · right; right; rw [h3]; decide

/-- Witness for C13: a Teacher with a negative id. -/
theorem User.serialize_format_witness :
    stoi (to_string (-42)) = .ok (-42)
    ∧ (to_string 2 = "1".toList ∨ to_string 2 = "2".toList ∨ to_string 2 = "3".toList) :=
  ⟨(User.serialize_format
      (User.Teacher ⟨"Eve".toList, -42, AccessLevel.Teacher⟩ "Physics".toList)).2.2.1
      (by decide),
   (User.serialize_format
      (User.Teacher ⟨"Eve".toList, -42, AccessLevel.Teacher⟩ "Physics".toList)).2.2.2.1
      (by decide)⟩

/-- C15: `Resource::deserialize(line)` fails with
`invalid_argument("Invalid resource format")` when the line has no comma.
When the line is `name,rest` with no comma in `name` and `stoi(rest)` is the
integer `v`: for `v` outside 1..3 it fails with exactly the failure of
`fromInt(v)`, and for `v` in 1..3 it returns the resource named `name` whose
required level has rank `v`. Consequently a resource with a comma-free name
(and a level of rank 1..3) is read back from its own serialized form. -/
theorem Resource.deserialize_cases (line name rest : Str) (v : Int) (r : Resource) :
    (',' ∉ line →
      Resource.deserialize line = .error (.invalid_argument "Invalid resource format"))
    ∧ (line = name ++ ',' :: rest → ',' ∉ name → stoi rest = .ok v →
        (∀ e, fromInt v = .error e → Resource.deserialize line = .error e)
        ∧ ((v < 1 ∨ v > 3) → ∃ e, fromInt v = .error e ∧ Resource.deserialize line = .error e)
        ∧ ((1 ≤ v ∧ v ≤ 3) → Resource.deserialize line = .ok ⟨name, ⟨v⟩⟩))
    ∧ (',' ∉ r.name → 1 ≤ r.requiredAccess.rank ∧ r.requiredAccess.rank ≤ 3 →
        Resource.deserialize r.serialize = .ok r) := by
  have key : ∀ (nm rs : Str) (w : Int), ',' ∉ nm → stoi rs = .ok w →
      Resource.deserialize (nm ++ ',' :: rs)
        = match fromInt w with
          | .error e => .error e
          | .ok lv => Resource.ctor nm lv := by
    intro nm rs w hnm hst
    unfold Resource.deserialize
    rw [find_append _ _ _ hnm]
    simp only [take_before_delim, drop_past_delim, hst]
  have hvalid : ∀ (nm rs : Str) (w : Int), ',' ∉ nm → stoi rs = .ok w → 1 ≤ w ∧ w ≤ 3 →
      Resource.deserialize (nm ++ ',' :: rs) = .ok ⟨nm, ⟨w⟩⟩ := by
    intro nm rs w hnm hst hw
    have hcheck : Validation.checkAccessLevel ⟨w⟩ = .ok () := by
      unfold Validation.checkAccessLevel
      rw [if_neg (by simp only [AccessLevel.Student, AccessLevel.Administrator]; omega)]
    rw [key nm rs w hnm hst, (fromInt_of_valid ⟨w⟩ hw).2]
    simp only [Resource.ctor, hcheck]
  refine ⟨?_, ?_, ?_⟩
  · intro h
    unfold Resource.deserialize find
    rw [if_neg h]
  · intro hline hname hst
    subst hline
    refine ⟨?_, ?_, hvalid name rest v hname hst⟩
    · intro e he
      rw [key name rest v hname hst, he]
    · intro hv
      have he : fromInt v = .error (.invalid_argument "Invalid access level int") := by
        unfold fromInt
        rw [if_pos hv]
      exact ⟨_, he, by rw [key name rest v hname hst, he]⟩
  · intro hname hrank
    rw [Resource.serialize_name_level]
    exact hvalid r.name _ _ hname (stoi_to_string _ (fromInt_of_valid _ hrank).1) hrank

/-- Witness for C15: a line without a comma, a level out of range, a level in
range, and the Server Room of `main` read back. -/
theorem Resource.deserialize_cases_witness :
    Resource.deserialize "Lab".toList = .error (.invalid_argument "Invalid resource format")
    ∧ (∃ e, fromInt 7 = .error e ∧ Resource.deserialize "Lab,7".toList = .error e)
    ∧ Resource.deserialize "Lab,2".toList = .ok ⟨"Lab".toList, ⟨2⟩⟩
    ∧ Resource.deserialize serverRoom.serialize = .ok serverRoom :=
  ⟨(Resource.deserialize_cases "Lab".toList [] [] 0 serverRoom).1 (by decide),
   ((Resource.deserialize_cases "Lab,7".toList "Lab".toList "7".toList 7 serverRoom).2.1
      (by decide) (by decide) (by decide)).2.1 (by decide),
   ((Resource.deserialize_cases "Lab,2".toList "Lab".toList "2".toList 2 serverRoom).2.1
      (by decide) (by decide) (by decide)).2.2 (by decide),
   (Resource.deserialize_cases [] [] [] 0 serverRoom).2.2 (by decide) (by decide)⟩

/-- C16: `addUser(u)` appends `u` as the last user, keeps every earlier user at
its position and leaves the resources unchanged; `addResource(r)` appends `r`
as the last resource, keeps every earlier resource at its position and leaves
the users unchanged. -/
theorem AccessControlSystem.add_appends {T : Type} [ResourceLike T]
    (sys : AccessControlSystem T) (u : User) (r : T) :
    ((sys.addUser u).users = sys.users ++ [u]
      ∧ (sys.addUser u).users.getLast? = some u
      ∧ (∀ i, i < sys.users.length → (sys.addUser u).users[i]? = sys.users[i]?)
      ∧ (sys.addUser u).resources = sys.resources)
    ∧ ((sys.addResource r).resources = sys.resources ++ [r]
      ∧ (sys.addResource r).resources.getLast? = some r
      ∧ (∀ i, i < sys.resources.length → (sys.addResource r).resources[i]? = sys.resources[i]?)
      ∧ (sys.addResource r).users = sys.users) := by
  refine ⟨⟨rfl, ?_, ?_, rfl⟩, ⟨rfl, ?_, ?_, rfl⟩⟩
  · simp [AccessControlSystem.addUser]
  · intro i hi
    simp only [AccessControlSystem.addUser]
    rw [List.getElem?_append_left hi]
  · simp [AccessControlSystem.addResource]
  · intro i hi
    simp only [AccessControlSystem.addResource]
    rw [List.getElem?_append_left hi]

/-- Witness for C16: adding the Administrator of `main` after the Student. -/
theorem AccessControlSystem.add_appends_witness :
    (AccessControlSystem.addUser
      ({ users := [ivan], resources := [serverRoom] } : AccessControlSystem Resource)
      drBrown).users[0]? = some ivan :=
  (AccessControlSystem.add_appends
    ({ users := [ivan], resources := [serverRoom] } : AccessControlSystem Resource)
    drBrown serverRoom).1.2.2.1 0 (by decide)

/-- C19: in `User::deserialize` the level token only gates success. For a line
with at least five tokens, a known type token, a non-empty name, an id token
that converts and a level token that converts to 1..3, the result is the user
of the class named by the type token, with the level that class's
constructor assigns (Student 1, Teacher 2, Administrator 3), whatever the
level token was; `Student,Bob,7,3,G` gives a Student of level Student. -/
theorem User.deserialize_level_from_type (line ty name idTok lvTok extra : Str)
    (rest : List Str) (id lv : Int)
    (htok : splitTokens line ',' = ty :: name :: idTok :: lvTok :: extra :: rest)
    (hname : name ≠ []) (hid : stoi idTok = .ok id) (hlv : stoi lvTok = .ok lv)
    (hrange : 1 ≤ lv ∧ lv ≤ 3) :
    (ty = "Student".toList →
      User.deserialize line = .ok (User.Student ⟨name, id, AccessLevel.Student⟩ extra))
    ∧ (ty = "Teacher".toList →
      User.deserialize line = .ok (User.Teacher ⟨name, id, AccessLevel.Teacher⟩ extra))
    ∧ (ty = "Administrator".toList →
      User.deserialize line
        = .ok (User.Administrator ⟨name, id, AccessLevel.Administrator⟩ extra))
    ∧ (User.deserialize "Student,Bob,7,3,G".toList
        = .ok (User.Student ⟨"Bob".toList, 7, AccessLevel.Student⟩ "G".toList)
      ∧ (User.Student ⟨"Bob".toList, 7, AccessLevel.Student⟩ "G".toList).getAccessLevel.rank = 1
      ∧ fromInt 3 = .ok AccessLevel.Administrator) := by
  have hfrom := (fromInt_of_valid ⟨lv⟩ hrange).2
  obtain ⟨c, cs, rfl⟩ := List.exists_cons_of_ne_nil hname
  have hd : User.deserialize line =
      if ty = "Student".toList then Student.ctor (c :: cs) id extra
      else if ty = "Teacher".toList then Teacher.ctor (c :: cs) id extra
      else if ty = "Administrator".toList then Administrator.ctor (c :: cs) id extra
      else .error (.invalid_argument "Unknown user type") := by
    unfold User.deserialize
    rw [htok]
    simp only [hid, hlv, hfrom]
  refine ⟨?_, ?_, ?_, by decide⟩
  · intro h; subst h; rw [hd]; rfl
  · intro h; subst h; rw [hd]; rfl
  · intro h; subst h; rw [hd]; rfl

/-- Witness for C19: a Teacher line whose level token says 1 and that has a
sixth token. -/
theorem User.deserialize_level_from_type_witness :
    User.deserialize "Teacher,Eve,9,1,Physics,more".toList
      = .ok (User.Teacher ⟨"Eve".toList, 9, AccessLevel.Teacher⟩ "Physics".toList) :=
  (User.deserialize_level_from_type "Teacher,Eve,9,1,Physics,more".toList "Teacher".toList
    "Eve".toList "9".toList "1".toList "Physics".toList ["more".toList] 9 1
    (by decide) (by decide) (by decide) (by decide) (by decide)).2.1 rfl

/-! ## Sorting the users -/

/-- The comparator of `main` is a strict weak ordering. -/
theorem byAccessLevel_strictWeakOrder : StrictWeakOrder byAccessLevel := by
  refine ⟨?_, ?_, ?_⟩
  · intro a
    simp [byAccessLevel]
  · intro a b c hab hbc
    simp only [byAccessLevel, decide_eq_true_eq] at hab hbc ⊢
    omega
  · intro a b c hab hbc
    simp only [byAccessLevel, decide_eq_false_iff_not] at hab hbc ⊢
    omega

/-- Insertion sort meets the contract of `std::sort`. -/
theorem insertionSortBy_contract : StdSortContract insertionSortBy := by
  intro comp l hcomp
  obtain ⟨hirr, htrans, hequiv⟩ := hcomp
  have hasym : ∀ a b, comp a b = true → comp b a = false := by
    intro a b hab
    cases hba : comp b a with
    | false => rfl
    | true => have := htrans a b a hab hba; rw [hirr a] at this; cases this
  haveI : IsTotal User (fun a b => comp b a = false) := ⟨by
    intro a b
    cases hba : comp b a with
    | false => exact Or.inl rfl
    | true => exact Or.inr (hasym b a hba)⟩
  haveI : IsTrans User (fun a b => comp b a = false) := ⟨by
    intro a b c hba hcb
    show comp c a = false
    cases hca : comp c a with
    | false => rfl
    | true =>
      have hab : comp a b = false := by
        cases h : comp a b with
        | false => rfl
        | true => have := htrans c a b hca h; rw [hcb] at this; cases this
      have hbc : comp b c = false := by
        cases h : comp b c with
        | false => rfl
        | true => have := htrans b c a h hca; rw [hba] at this; cases this
      have := (hequiv a b c ⟨hab, hba⟩ ⟨hbc, hcb⟩).2
      rw [hca] at this; cases this⟩
  exact ⟨List.perm_insertionSort _ l, List.sorted_insertionSort _ l⟩

/-- C14: for any `std::sort` that meets its contract, `sortUsersBy` with the
comparator "rank of a less than rank of b" leaves a permutation of the users
in non-decreasing order of access-level rank and does not change the
resources; the users Administrator(3), Student(1), Teacher(2) end up in the
order Student, Teacher, Administrator. -/
theorem AccessControlSystem.sortUsersBy_byAccessLevel {T : Type}
    (sort : (User → User → Bool) → List User → List User) (hsort : StdSortContract sort)
    (sys : AccessControlSystem T) :
    (sys.sortUsersBy sort byAccessLevel).users.Perm sys.users
    ∧ (sys.sortUsersBy sort byAccessLevel).users.Pairwise
        (fun a b => a.getAccessLevel.rank ≤ b.getAccessLevel.rank)
    ∧ (sys.sortUsersBy sort byAccessLevel).resources = sys.resources
    ∧ (sys.users = [drBrown, ivan, anna] →
        (sys.sortUsersBy sort byAccessLevel).users = [ivan, anna, drBrown]) := by
  obtain ⟨hperm, hpair⟩ := hsort byAccessLevel sys.users byAccessLevel_strictWeakOrder
  have hsorted : (sort byAccessLevel sys.users).Pairwise
      (fun a b => a.getAccessLevel.rank ≤ b.getAccessLevel.rank) := by
    refine hpair.imp ?_
    intro a b hab
    simp only [byAccessLevel, decide_eq_false_iff_not] at hab
    omega
  refine ⟨hperm, hsorted, rfl, ?_⟩
  intro hus
  show sort byAccessLevel sys.users = [ivan, anna, drBrown]
  rw [hus] at hperm hsorted ⊢
  have hranks : (sort byAccessLevel [drBrown, ivan, anna]).map (fun u => u.getAccessLevel.rank)
      = [1, 2, 3] := by
    apply List.eq_of_perm_of_sorted (r := (· ≤ ·))
    · exact (hperm.map _).trans (by decide)
    · exact List.pairwise_map.2 hsorted
    · decide
  have hmem : ∀ x ∈ sort byAccessLevel [drBrown, ivan, anna],
      x = drBrown ∨ x = ivan ∨ x = anna := by
    intro x hx
    simpa using hperm.subset hx
  match hl : sort byAccessLevel [drBrown, ivan, anna], hranks, hmem with
  | [x, y, z], hr, hm =>
    simp only [List.map_cons, List.map_nil, List.cons.injEq, and_true] at hr
    obtain ⟨hx, hy, hz⟩ := hr
    have ex : x = ivan := by
      rcases hm x (by simp) with h | h | h
      · subst h; exact absurd hx (by decide)
      · exact h
      · subst h; exact absurd hx (by decide)
    have ey : y = anna := by
      rcases hm y (by simp) with h | h | h
      · subst h; exact absurd hy (by decide)
      · subst h; exact absurd hy (by decide)
      · exact h
    have ez : z = drBrown := by
      rcases hm z (by simp) with h | h | h
      · exact h
      · subst h; exact absurd hz (by decide)
      · subst h; exact absurd hz (by decide)
    rw [ex, ey, ez]
  | [], hr, _ => simp at hr
  | [_], hr, _ => simp at hr
  | [_, _], hr, _ => simp at hr
  | _ :: _ :: _ :: _ :: _, hr, _ => simp at hr

/-- Witness for C14: insertion sort on the three users of the example. -/
theorem AccessControlSystem.sortUsersBy_byAccessLevel_witness :
    (AccessControlSystem.sortUsersBy insertionSortBy
      ({ users := [drBrown, ivan, anna], resources := [serverRoom] } :
        AccessControlSystem Resource) byAccessLevel).users = [ivan, anna, drBrown] :=
  (AccessControlSystem.sortUsersBy_byAccessLevel insertionSortBy insertionSortBy_contract
    ({ users := [drBrown, ivan, anna], resources := [serverRoom] } :
      AccessControlSystem Resource)).2.2.2 rfl

/-! ## The registry invariant -/

/-- `checkAccessLevel` accepts exactly the levels of rank 1..3. -/
theorem Validation.checkAccessLevel_ok_iff (level : AccessLevel) :
    Validation.checkAccessLevel level = .ok () ↔ 1 ≤ level.rank ∧ level.rank ≤ 3 := by
  unfold Validation.checkAccessLevel
  simp only [AccessLevel.Student, AccessLevel.Administrator]
  split
  · constructor
    · intro h; cases h
    · intro h; omega
  · constructor
    · intro _; omega
    · intro _; rfl

/-- `checkName` accepts exactly the non-empty names. -/
theorem Validation.checkName_ok_iff (name : Str) :
    Validation.checkName name = .ok () ↔ name ≠ [] := by
  cases name with
  | nil => simp [Validation.checkName]
  | cons c cs => simp [Validation.checkName]

/-- The base constructor only returns validated members. -/
theorem UserBase.ctor_ok (name : Str) (id : Int) (level : AccessLevel) (b : UserBase)
    (h : UserBase.ctor name id level = .ok b) :
    b = ⟨name, id, level⟩ ∧ name ≠ [] ∧ 1 ≤ level.rank ∧ level.rank ≤ 3 := by
  unfold UserBase.ctor at h
  cases hn : Validation.checkName name with
  | error e => rw [hn] at h; cases h
  | ok x =>
    cases hl : Validation.checkAccessLevel level with
    | error e => rw [hn, hl] at h; cases h
    | ok y =>
      rw [hn, hl] at h
      simp only [Except.ok.injEq] at h
      exact ⟨h.symm, (Validation.checkName_ok_iff name).1 hn,
        (Validation.checkAccessLevel_ok_iff level).1 hl⟩

/-- A user returned by `Student::Student` satisfies the invariant. -/
theorem Student.student_ctor_valid (name : Str) (id : Int) (group : Str) (u : User)
    (h : Student.ctor name id group = .ok u) : u.valid := by
  unfold Student.ctor at h
  cases hb : UserBase.ctor name id AccessLevel.Student with
  | error e => rw [hb] at h; cases h
  | ok b =>
    rw [hb] at h
    obtain ⟨rfl, hn, h1, h3⟩ := UserBase.ctor_ok _ _ _ _ hb
    cases h
    exact ⟨hn, h1, h3⟩

/-- A user returned by `Teacher::Teacher` satisfies the invariant. -/
theorem Teacher.teacher_ctor_valid (name : Str) (id : Int) (department : Str) (u : User)
    (h : Teacher.ctor name id department = .ok u) : u.valid := by
  unfold Teacher.ctor at h
  cases hb : UserBase.ctor name id AccessLevel.Teacher with
  | error e => rw [hb] at h; cases h
  | ok b =>
    rw [hb] at h
    obtain ⟨rfl, hn, h1, h3⟩ := UserBase.ctor_ok _ _ _ _ hb
    cases h
    exact ⟨hn, h1, h3⟩

/-- A user returned by `Administrator::Administrator` satisfies the invariant. -/
theorem Administrator.administrator_ctor_valid (name : Str) (id : Int) (position : Str) (u : User)
    (h : Administrator.ctor name id position = .ok u) : u.valid := by
  unfold Administrator.ctor at h
  cases hb : UserBase.ctor name id AccessLevel.Administrator with
  | error e => rw [hb] at h; cases h
  | ok b =>
    rw [hb] at h
    obtain ⟨rfl, hn, h1, h3⟩ := UserBase.ctor_ok _ _ _ _ hb
    cases h
    exact ⟨hn, h1, h3⟩

/-- `setName` keeps the invariant, whether it returns or throws. -/
theorem User.setName_valid (u : User) (newName : Str) (h : u.valid) :
    (u.setName newName).1.valid := by
  unfold User.setName
  cases hn : Validation.checkName newName with
  | error e => exact h
  | ok x =>
    have hne := (Validation.checkName_ok_iff newName).1 hn
    obtain ⟨_, h1, h3⟩ := h
    cases u <;> exact ⟨hne, h1, h3⟩

/-- `setId` keeps the invariant. -/
theorem User.setId_valid (u : User) (newId : Int) (h : u.valid) : (u.setId newId).valid := by
  obtain ⟨hn, h1, h3⟩ := h
  cases u <;> exact ⟨hn, h1, h3⟩

/-- `setAccessLevel` keeps the invariant, whether it returns or throws. -/
theorem User.setAccessLevel_valid (u : User) (level : AccessLevel) (h : u.valid) :
    (u.setAccessLevel level).1.valid := by
  unfold User.setAccessLevel
  cases hl : Validation.checkAccessLevel level with
  | error e => exact h
  | ok x =>
    have hlv := (Validation.checkAccessLevel_ok_iff level).1 hl
    obtain ⟨hn, _, _⟩ := h
    cases u <;> exact ⟨hn, hlv.1, hlv.2⟩

/-- Every user object a caller can obtain satisfies the invariant. -/
theorem User.Constructed.valid (u : User) (h : User.Constructed u) : u.valid := by
  induction h with
  | student name id group u hc => exact Student.student_ctor_valid _ _ _ _ hc
  | teacher name id department u hc => exact Teacher.teacher_ctor_valid _ _ _ _ hc
  | administrator name id position u hc => exact Administrator.administrator_ctor_valid _ _ _ _ hc
  | afterSetName u newName _ ih => exact User.setName_valid u newName ih
  | afterSetId u newId _ ih => exact User.setId_valid u newId ih
  | afterSetAccessLevel u level _ ih => exact User.setAccessLevel_valid u level ih

/-- A user returned by `User::deserialize` satisfies the invariant. -/
theorem User.user_deserialize_valid (line : Str) (u : User) (h : User.deserialize line = .ok u) :
    u.valid := by
  unfold User.deserialize at h
  split at h
  · split at h
    · cases h
    · split at h
      · cases h
      · split at h
        · cases h
        · split at h
          · exact Student.student_ctor_valid _ _ _ _ h
          · split at h
            · exact Teacher.teacher_ctor_valid _ _ _ _ h
            · split at h
              · exact Administrator.administrator_ctor_valid _ _ _ _ h
              · cases h
  · cases h

/-- A resource returned by `Resource::Resource` satisfies the invariant. -/
theorem Resource.resource_ctor_valid (name : Str) (level : AccessLevel) (r : Resource)
    (h : Resource.ctor name level = .ok r) : r.valid := by
  unfold Resource.ctor at h
  cases hl : Validation.checkAccessLevel level with
  | error e => rw [hl] at h; cases h
  | ok x =>
    rw [hl] at h
    cases h
    exact (Validation.checkAccessLevel_ok_iff level).1 hl

/-- A resource returned by `Resource::deserialize` satisfies the invariant. -/
theorem Resource.resource_deserialize_valid (line : Str) (r : Resource)
    (h : Resource.deserialize line = .ok r) : r.valid := by
  unfold Resource.deserialize at h
  split at h
  · cases h
  · simp only at h
    split at h
    · cases h
    · split at h
      · cases h
      · exact Resource.resource_ctor_valid _ _ _ h

/-- The loading pass keeps the invariant of the registry, however it ends. -/
theorem AccessControlSystem.loadLines_valid (lines : List Str)
    (sys : AccessControlSystem Resource) (rr : Bool)
    (hu : ∀ u ∈ sys.users, u.valid) (hr : ∀ r ∈ sys.resources, r.valid) :
    (∀ u ∈ (AccessControlSystem.loadLines lines sys rr).1.users, u.valid)
    ∧ (∀ r ∈ (AccessControlSystem.loadLines lines sys rr).1.resources, r.valid) := by
  induction lines generalizing sys rr with
  | nil => exact ⟨hu, hr⟩
  | cons line rest ih =>
    simp only [AccessControlSystem.loadLines]
    split
    · exact ih sys rr hu hr
    · split
      · exact ih sys true hu hr
      · split
        · cases hd : User.deserialize line with
          | error e => exact ⟨hu, hr⟩
          | ok u =>
            refine ih _ rr ?_ hr
            intro x hx
            rcases List.mem_append.1 hx with hx | hx
            · exact hu x hx
            · rw [List.mem_singleton] at hx
              subst hx
              exact User.user_deserialize_valid line _ hd
        · cases hd : (ResourceLike.deserialize line : Except Err Resource) with
          | error e => exact ⟨hu, hr⟩
          | ok r =>
            refine ih _ rr hu ?_
            intro x hx
            rcases List.mem_append.1 hx with hx | hx
            · exact hr x hx
            · rw [List.mem_singleton] at hx
              subst hx
              exact Resource.resource_deserialize_valid line _ hd

/-- Replacing one user of a valid sequence by a valid user keeps it valid. -/
theorem valid_replace (pre post : List User) (u v : User)
    (h : ∀ x ∈ pre ++ u :: post, x.valid) (hv : u.valid → v.valid) :
    ∀ x ∈ pre ++ v :: post, x.valid := by
  intro x hx
  rcases List.mem_append.1 hx with hx | hx
  · exact h x (List.mem_append_left _ hx)
  · rcases List.mem_cons.1 hx with hx | hx
    · subst hx
      exact hv (h u (List.mem_append_right _ (List.mem_cons_self _ _)))
    · exact h x (List.mem_append_right _ (List.mem_cons_of_mem _ hx))

/-- C18: in every registry state reachable from the empty registry by
`addUser` and `addResource` of successfully constructed objects,
`sortUsersBy`, `loadFromFile` (returning or throwing) and `setName`,
`setId`, `setAccessLevel` on contained users, every user has a non-empty name
and a level of rank 1..3 and every resource a required level of rank 1..3. -/
theorem AccessControlSystem.reachable_valid
    (sort : (User → User → Bool) → List User → List User) (hsort : StdSortContract sort)
    (sys : AccessControlSystem Resource) (h : AccessControlSystem.Reachable sort sys) :
    (∀ u ∈ sys.users,
        u.getName ≠ [] ∧ 1 ≤ u.getAccessLevel.rank ∧ u.getAccessLevel.rank ≤ 3)
    ∧ (∀ r ∈ sys.resources, 1 ≤ r.requiredAccess.rank ∧ r.requiredAccess.rank ≤ 3) := by
  show (∀ u ∈ sys.users, u.valid) ∧ (∀ r ∈ sys.resources, r.valid)
  induction h with
  | fresh =>
    exact ⟨fun _ hu => absurd hu (List.not_mem_nil _), fun _ hr => absurd hr (List.not_mem_nil _)⟩
  | afterAddUser sys u _ hc ih =>
    refine ⟨?_, ih.2⟩
    intro x hx
    rcases List.mem_append.1 hx with hx | hx
    · exact ih.1 x hx
    · rw [List.mem_singleton] at hx
      subst hx
      exact User.Constructed.valid _ hc
  | afterAddResource sys name level r _ hc ih =>
    refine ⟨ih.1, ?_⟩
    intro x hx
    rcases List.mem_append.1 hx with hx | hx
    · exact ih.2 x hx
    · rw [List.mem_singleton] at hx
      subst hx
      exact Resource.resource_ctor_valid _ _ _ hc
  | afterSort sys comp _ hcomp ih =>
    refine ⟨?_, ih.2⟩
    intro x hx
    exact ih.1 x ((hsort comp sys.users hcomp).1.subset hx)
  | afterLoad sys file _ ih =>
    cases file with
    | none => exact ih
    | some text =>
      simp only [AccessControlSystem.loadFromFile]
      rw [AccessControlSystem.loadLoop_eq_loadLines]
      exact AccessControlSystem.loadLines_valid _ _ _
        (fun _ hu => absurd hu (List.not_mem_nil _)) (fun _ hr => absurd hr (List.not_mem_nil _))
  | afterSetName sys pre post u newName _ hus ih =>
    refine ⟨?_, ih.2⟩
    exact valid_replace pre post u _ (hus ▸ ih.1) (User.setName_valid u newName)
  | afterSetId sys pre post u newId _ hus ih =>
    refine ⟨?_, ih.2⟩
    exact valid_replace pre post u _ (hus ▸ ih.1) (User.setId_valid u newId)
  | afterSetAccessLevel sys pre post u level _ hus ih =>
    refine ⟨?_, ih.2⟩
    exact valid_replace pre post u _ (hus ▸ ih.1) (User.setAccessLevel_valid u level)

/-- Witness for C18: the Student of `main` is added, an attempt to give it the
level of rank 7 throws, and a file with one good and one bad record is loaded. -/
theorem AccessControlSystem.reachable_valid_witness :
    (∀ u ∈ (AccessControlSystem.loadFromFile
          ({ (AccessControlSystem.empty.addUser ivan) with
              users := [] ++ (ivan.setAccessLevel ⟨7⟩).1 :: [] } : AccessControlSystem Resource)
          (some "Teacher,Anna Volkova,2,2,Mathematics\nRobot\n".toList)).1.users,
        u.getName ≠ [] ∧ 1 ≤ u.getAccessLevel.rank ∧ u.getAccessLevel.rank ≤ 3)
    ∧ (∀ r ∈ (AccessControlSystem.loadFromFile
          ({ (AccessControlSystem.empty.addUser ivan) with
              users := [] ++ (ivan.setAccessLevel ⟨7⟩).1 :: [] } : AccessControlSystem Resource)
          (some "Teacher,Anna Volkova,2,2,Mathematics\nRobot\n".toList)).1.resources,
        1 ≤ r.requiredAccess.rank ∧ r.requiredAccess.rank ≤ 3) :=
  AccessControlSystem.reachable_valid insertionSortBy insertionSortBy_contract _
    (AccessControlSystem.Reachable.afterLoad _ _
      (AccessControlSystem.Reachable.afterSetAccessLevel _ [] [] ivan ⟨7⟩
        (AccessControlSystem.Reachable.afterAddUser _ ivan AccessControlSystem.Reachable.fresh
          (User.Constructed.student "Ivan Petrov".toList 1 "CS-101".toList ivan rfl))
        rfl))

/-! ## The fixed-capacity inventory -/

/-- `addItem` keeps the capacity and the number of slots, and keeps the count
within the capacity. -/
theorem Inventory.addItem_invariant (inv : Inventory) (item : Str)
    (hlen : inv.items.length = inv.capacity) (hcount : inv.count ≤ inv.capacity) :
    (inv.addItem item).capacity = inv.capacity
    ∧ (inv.addItem item).items.length = (inv.addItem item).capacity
    ∧ (inv.addItem item).count ≤ (inv.addItem item).capacity := by
  unfold Inventory.addItem
  split
  · refine ⟨rfl, ?_, ?_⟩
    · simp only [List.length_set]; exact hlen
    · show inv.count + 1 ≤ inv.capacity
      omega
  · exact ⟨rfl, hlen, hcount⟩

/-- A sequence of `addItem` calls keeps the capacity and the number of slots,
and keeps the count within the capacity. -/
theorem Inventory.addItems_invariant (calls : List Str) (inv : Inventory)
    (hlen : inv.items.length = inv.capacity) (hcount : inv.count ≤ inv.capacity) :
    (inv.addItems calls).capacity = inv.capacity
    ∧ (inv.addItems calls).items.length = inv.capacity
    ∧ (inv.addItems calls).count ≤ inv.capacity := by
  induction calls generalizing inv with
  | nil => exact ⟨rfl, hlen, hcount⟩
  | cons c cs ih =>
    obtain ⟨h1, h2, h3⟩ := Inventory.addItem_invariant inv c hlen hcount
    have := ih (inv.addItem c) h2 h3
    rw [h1] at this
    exact this

/-- C20: in the inventory reached from `Inventory(cap)` by any sequence of
`addItem` calls the count never exceeds the capacity. There, `addItem` with
count < capacity stores the item in slot `count`, leaves every other slot as
it was and raises the count by one; `addItem` with count = capacity changes
nothing. In `main` (capacity 5) the sixth call, `addItem("Extra Item")`, adds
nothing. -/
theorem Inventory.addItem_bounded (cap : Nat) (calls : List Str) (item : Str) (inv : Inventory)
    (hinv : inv = (Inventory.ctor cap).addItems calls) :
    (inv.count ≤ inv.capacity ∧ inv.capacity = cap ∧ inv.items.length = cap)
    ∧ (inv.count < inv.capacity →
        (inv.addItem item).count = inv.count + 1
        ∧ (inv.addItem item).capacity = inv.capacity
        ∧ (inv.addItem item).items[inv.count]? = some item
        ∧ (∀ i, i ≠ inv.count → (inv.addItem item).items[i]? = inv.items[i]?))
    ∧ (inv.count = inv.capacity → inv.addItem item = inv)
    ∧ (mainInventory.count = 5
        ∧ mainInventory.items
            = ["Sword".toList, "Shield".toList, "Health Potion".toList, "Mana Potion".toList,
                "Key".toList]
        ∧ mainInventory
            = (Inventory.ctor 5).addItems
                ["Sword".toList, "Shield".toList, "Health Potion".toList,
                  "Mana Potion".toList, "Key".toList]) := by
  have hbase := Inventory.addItems_invariant calls (Inventory.ctor cap)
    (by simp [Inventory.ctor]) (Nat.zero_le _)
  rw [← hinv] at hbase
  have hcap : inv.capacity = cap := hbase.1
  have hlen : inv.items.length = cap := hbase.2.1
  have hcount : inv.count ≤ cap := hbase.2.2
  refine ⟨⟨by omega, hcap, hlen⟩, ?_, ?_, by decide⟩
  · intro hlt
    have hadd : inv.addItem item
        = { inv with items := inv.items.set inv.count item, count := inv.count + 1 } := by
      unfold Inventory.addItem
      rw [if_pos hlt]
    rw [hadd]
    refine ⟨rfl, rfl, ?_, ?_⟩
    · show (inv.items.set inv.count item)[inv.count]? = some item
      rw [List.getElem?_set_self (by omega)]
    · intro i hi
      show (inv.items.set inv.count item)[i]? = inv.items[i]?
      rw [List.getElem?_set_ne (fun h => hi h.symm)]
  · intro heq
    unfold Inventory.addItem
    rw [if_neg (by omega)]

/-- Witness for C20: an inventory of capacity 2 after one call takes a second
item in slot 1, and after two calls refuses a third. -/
theorem Inventory.addItem_bounded_witness :
    ((((Inventory.ctor 2).addItems ["Sword".toList]).addItem "Shield".toList).items[1]?
        = some "Shield".toList)
    ∧ (((Inventory.ctor 2).addItems ["Sword".toList, "Shield".toList]).addItem "Key".toList
        = (Inventory.ctor 2).addItems ["Sword".toList, "Shield".toList]) :=
  ⟨((Inventory.addItem_bounded 2 ["Sword".toList] "Shield".toList
      ((Inventory.ctor 2).addItems ["Sword".toList]) rfl).2.1 (by decide)).2.2.1,
   (Inventory.addItem_bounded 2 ["Sword".toList, "Shield".toList] "Key".toList
      ((Inventory.ctor 2).addItems ["Sword".toList, "Shield".toList]) rfl).2.2.1 (by decide)⟩

/-! ## The battle loop -/

/-- An `int` value is not changed by the reduction to 32 bits. -/
theorem wrapInt_of_inRange (v : Int) (h1 : INT_MIN ≤ v) (h2 : v ≤ INT_MAX) : wrapInt v = v := by
  unfold wrapInt
  unfold INT_MIN at h1
  unfold INT_MAX at h2
  omega

/-- The reduction to 32 bits gives an `int` value. -/
theorem wrapInt_range (v : Int) : INT_MIN ≤ wrapInt v ∧ wrapInt v ≤ INT_MAX := by
  unfold wrapInt INT_MIN INT_MAX
  omega

namespace RPG

/-- `takeDamage` with a positive `int` damage on a character of positive `int`
health: the health drops by the damage but not below 0, nothing else changes. -/
theorem takeDamage_props (c : Character) (damage : Int) (hc0 : 0 < c.health)
    (hc1 : c.health ≤ INT_MAX) (hd0 : 0 < damage) (hd1 : damage ≤ INT_MAX) :
    (c.takeDamage damage).health = (if c.health - damage < 0 then 0 else c.health - damage)
    ∧ (c.takeDamage damage).attack = c.attack ∧ (c.takeDamage damage).defense = c.defense
    ∧ (c.takeDamage damage).maxHealth = c.maxHealth
    ∧ (c.takeDamage damage).experience = c.experience := by
  have hmin : INT_MIN = -2147483648 := rfl
  have hmax : INT_MAX = 2147483647 := rfl
  have hw : wrapInt (c.health - damage) = c.health - damage :=
    wrapInt_of_inRange _ (by omega) (by omega)
  refine ⟨?_, rfl, rfl, rfl, rfl⟩
  simp only [Character.takeDamage, hw]

/-- The health of the hero after the experience for a kill, when a level-up
would not restore a negative health. -/
theorem gainExperience_health (hero : Character) (hh : 0 ≤ hero.health)
    (hlv : 100 ≤ wrapInt (hero.experience + 30) → 0 ≤ wrapInt (hero.maxHealth + 20)) :
    0 ≤ (hero.gainExperience 30).health := by
  unfold Character.gainExperience
  simp only
  split
  · next h => exact hlv h
  · exact hh

/-- The special attack of a monster on a hero with an `int` health that is not
negative changes at most the hero's health, which stays such a value. -/
theorem specialAttack_props (m : Monster) (hero : Character) (hh0 : 0 ≤ hero.health)
    (hh1 : hero.health ≤ INT_MAX) :
    0 ≤ (m.specialAttack hero).health ∧ (m.specialAttack hero).health ≤ INT_MAX
    ∧ (m.specialAttack hero).attack = hero.attack
    ∧ (m.specialAttack hero).maxHealth = hero.maxHealth
    ∧ (m.specialAttack hero).experience = hero.experience := by
  have hsd := wrapInt_range (wrapInt (m.attack - hero.getDefense) + m.kind.bonus)
  unfold Monster.specialAttack
  simp only
  split
  · next hpos =>
    by_cases hz : hero.health = 0
    · have hmin : INT_MIN = -2147483648 := rfl
      have hmax : INT_MAX = 2147483647 := rfl
      have hw : wrapInt (hero.health
          - wrapInt (wrapInt (m.attack - hero.getDefense) + m.kind.bonus))
          = hero.health - wrapInt (wrapInt (m.attack - hero.getDefense) + m.kind.bonus) :=
        wrapInt_of_inRange _ (by omega) (by omega)
      refine ⟨?_, ?_, rfl, rfl, rfl⟩
      · simp only [Character.takeDamage, hw]
        split <;> omega
      · simp only [Character.takeDamage, hw]
        split <;> omega
    · obtain ⟨h1, h2, -, h4, h5⟩ := takeDamage_props hero _ (by omega) hh1 hpos hsd.2
      rw [h1]
      refine ⟨?_, ?_, h2, h4, h5⟩
      · split <;> omega
      · split <;> omega
  · exact ⟨hh0, hh1, rfl, rfl, rfl⟩

/-- The iteration in which the hero's blow takes the monster's last health:
the hero gains the experience and the loop is left by `break`. -/
theorem battleRound_kill (hero : Character) (monster : Monster)
    (hm0 : 0 < monster.health) (hm1 : monster.health ≤ INT_MAX)
    (hatk : monster.defense < hero.attack) (hno : hero.attack - monster.defense ≤ INT_MAX)
    (hkill : monster.health - (hero.attack - monster.defense) ≤ 0) :
    (battleRound hero monster).1 = hero.gainExperience 30
    ∧ (battleRound hero monster).2.1.health = 0
    ∧ (battleRound hero monster).2.2 = true := by
  have hmin : INT_MIN = -2147483648 := rfl
  have hd : wrapInt (hero.attack - monster.defense) = hero.attack - monster.defense :=
    wrapInt_of_inRange _ (by omega) hno
  obtain ⟨ht, -⟩ := takeDamage_props monster.toCharacter (hero.attack - monster.defense)
    hm0 hm1 (by omega) hno
  have ht0 : (monster.toCharacter.takeDamage (hero.attack - monster.defense)).health = 0 := by
    rw [ht]; split <;> omega
  have hatt : hero.attackEnemy monster.toCharacter
      = .ok (hero.gainExperience 30,
          monster.toCharacter.takeDamage (hero.attack - monster.defense)) := by
    unfold Character.attackEnemy
    simp only [Character.getDefense, hd]
    rw [if_neg (by simp [Character.isAlive, hm0]), if_pos (by omega),
      if_pos (by simp [Character.isAlive, ht0])]
  unfold battleRound
  rw [hatt]
  simp only
  rw [if_pos (by simp [Character.isAlive, ht0])]
  exact ⟨rfl, ht0, rfl⟩

/-- An iteration in which the monster survives the hero's blow: the monster
loses the damage, then makes its special attack, and the loop goes on. -/
theorem battleRound_continue (hero : Character) (monster : Monster)
    (hm0 : 0 < monster.health) (hm1 : monster.health ≤ INT_MAX)
    (hatk : monster.defense < hero.attack) (hno : hero.attack - monster.defense ≤ INT_MAX)
    (hsurv : 0 < monster.health - (hero.attack - monster.defense)) :
    (battleRound hero monster).1 = (battleRound hero monster).2.1.specialAttack hero
    ∧ (battleRound hero monster).2.1.health
        = monster.health - (hero.attack - monster.defense)
    ∧ (battleRound hero monster).2.1.defense = monster.defense
    ∧ (battleRound hero monster).2.2 = false := by
  have hmin : INT_MIN = -2147483648 := rfl
  have hd : wrapInt (hero.attack - monster.defense) = hero.attack - monster.defense :=
    wrapInt_of_inRange _ (by omega) hno
  obtain ⟨ht, -, htd, -⟩ := takeDamage_props monster.toCharacter
    (hero.attack - monster.defense) hm0 hm1 (by omega) hno
  have ht0 : (monster.toCharacter.takeDamage (hero.attack - monster.defense)).health
      = monster.health - (hero.attack - monster.defense) := by
    rw [ht]; split <;> omega
  have hatt : hero.attackEnemy monster.toCharacter
      = .ok (hero, monster.toCharacter.takeDamage (hero.attack - monster.defense)) := by
    unfold Character.attackEnemy
    simp only [Character.getDefense, hd]
    rw [if_neg (by simp [Character.isAlive, hm0]), if_pos (by omega),
      if_neg (by simp [Character.isAlive, ht0]; omega)]
  unfold battleRound
  rw [hatt]
  simp only
  rw [if_neg (by simp [Character.isAlive, ht0]; omega)]
  exact ⟨rfl, ht0, htd, rfl⟩

/-- One iteration of the battle loop, started with the hero alive in a state
that satisfies the loop invariant: the monster loses health but does not go
below 0; an iteration left by `break` leaves the monster at health 0 and the
hero's health not negative; any other iteration re-establishes the invariant. -/
theorem battleRound_props (hero : Character) (monster : Monster)
    (hinv : BattleInv hero monster) :
    (battleRound hero monster).2.1.health < monster.health
    ∧ 0 ≤ (battleRound hero monster).2.1.health
    ∧ ((battleRound hero monster).2.2 = true →
        (battleRound hero monster).2.1.health = 0 ∧ 0 ≤ (battleRound hero monster).1.health)
    ∧ ((battleRound hero monster).2.2 = false →
        BattleInv (battleRound hero monster).1 (battleRound hero monster).2.1) := by
  obtain ⟨hh0, hh1, hm0, hm1, hatk, hno, hlv⟩ := hinv
  by_cases hkill : monster.health - (hero.attack - monster.defense) ≤ 0
  · obtain ⟨h1, h2, h3⟩ := battleRound_kill hero monster hm0 hm1 hatk hno hkill
    refine ⟨by omega, by omega, ?_, ?_⟩
    · intro _
      refine ⟨h2, ?_⟩
      rw [h1]
      exact gainExperience_health hero hh0 hlv
    · intro hf
      rw [h3] at hf
      cases hf
  · obtain ⟨h1, h2, h3, h4⟩ := battleRound_continue hero monster hm0 hm1 hatk hno (by omega)
    refine ⟨by omega, by omega, ?_, ?_⟩
    · intro ht
      rw [h4] at ht
      cases ht
    · intro _
      obtain ⟨s1, s2, s3, s4, s5⟩ :=
        specialAttack_props (battleRound hero monster).2.1 hero hh0 hh1
      rw [h1]
      refine ⟨s1, s2, by omega, by omega, ?_, ?_, ?_⟩
      · rw [s3, h3]; exact hatk
      · rw [s3, h3]; exact hno
      · rw [s4, s5]; exact hlv

end RPG

namespace RPG

/-- From a state that satisfies the loop invariant the battle loop ends within
as many iterations as the monster has health, with one of the two at health
0 and neither below 0. -/
theorem battle_ends_within (k : Nat) (hero : Character) (monster : Monster)
    (hinv : BattleInv hero monster) (hk : monster.health ≤ k) :
    ∃ hero1 monster1,
      (∀ fuel, k ≤ fuel → battle fuel hero monster = some (hero1, monster1))
      ∧ (hero1.health = 0 ∨ monster1.health = 0) ∧ 0 ≤ hero1.health ∧ 0 ≤ monster1.health := by
  induction k generalizing hero monster with
  | zero =>
    obtain ⟨-, -, hm0, -⟩ := hinv
    simp only [Nat.cast_zero] at hk
    omega
  | succ k ih =>
    have hinv0 := hinv
    obtain ⟨hh0, hh1, hm0, hm1, -⟩ := hinv
    by_cases hal : 0 < hero.health
    · have hcond : (hero.isAlive && monster.isAlive) = true := by
        simp [Character.isAlive, hal, hm0]
      obtain ⟨p1, p2, p3, p4⟩ := battleRound_props hero monster hinv0
      cases hb : (battleRound hero monster).2.2 with
      | true =>
        obtain ⟨q1, q2⟩ := p3 hb
        refine ⟨(battleRound hero monster).1, (battleRound hero monster).2.1, ?_,
          Or.inr q1, q2, p2⟩
        intro fuel hfuel
        cases fuel with
        | zero => omega
        | succ f => simp only [battle, hcond, hb, if_true]
      | false =>
        have hk1 : (battleRound hero monster).2.1.health ≤ k := by
          push_cast at hk
          omega
        obtain ⟨h1, m1, hrun, hfin⟩ := ih _ _ (p4 hb) hk1
        refine ⟨h1, m1, ?_, hfin⟩
        intro fuel hfuel
        cases fuel with
        | zero => omega
        | succ f =>
          simp only [battle, hcond, hb, if_true, Bool.false_eq_true, if_false]
          exact hrun f (by omega)
    · have hz : hero.health = 0 := by omega
      have hcond : (hero.isAlive && monster.isAlive) = false := by
        simp [Character.isAlive, hz]
      refine ⟨hero, monster, ?_, Or.inl hz, hh0, by omega⟩
      intro fuel _
      cases fuel with
      | zero => simp only [battle, hcond, Bool.false_eq_true, if_false]
      | succ f => simp only [battle, hcond, Bool.false_eq_true, if_false]

/-- The loop invariant holds each time the loop condition is tested. -/
theorem afterRounds_inv (n : Nat) (hero h : Character) (monster m : Monster)
    (hinv : BattleInv hero monster) (hrun : afterRounds n hero monster = some (h, m)) :
    BattleInv h m := by
  induction n generalizing hero monster with
  | zero =>
    simp only [afterRounds, Option.some.injEq, Prod.mk.injEq] at hrun
    rw [← hrun.1, ← hrun.2]
    exact hinv
  | succ n ih =>
    simp only [afterRounds] at hrun
    split at hrun
    · split at hrun
      · cases hrun
      · next hb =>
        have hb1 : (battleRound hero monster).2.2 = false := by simpa using hb
        exact ih _ _ ((battleRound_props hero monster hinv).2.2.2 hb1) hrun
    · cases hrun

/-- When the hero attacks with the largest `int` a monster of defense -1 that
has no attack, an iteration changes nothing. -/
theorem battleRound_stuck : battleRound strongHero weakGoblin = (strongHero, weakGoblin, false) := by
  decide

/-- The battle of `strongHero` and `weakGoblin` is still running after any
number of iterations. -/
theorem battle_stuck (fuel : Nat) : battle fuel strongHero weakGoblin = none := by
  have hcond : (strongHero.isAlive && weakGoblin.isAlive) = true := by decide
  induction fuel with
  | zero => simp only [battle, hcond, if_true]
  | succ f ih =>
    simp only [battle, hcond, if_true, battleRound_stuck, Bool.false_eq_true, if_false]
    exact ih

end RPG

/-- C21 as stated fails. A hero alive with attack 15 against the Goblin
(defense 2) whose `maxHealth` is -100 and whose experience is 70 wins in three
iterations, levels up on the kill and ends with health -80. A hero whose
attack is the largest `int` against a monster of defense -1 and attack 0
does no damage (the difference is not an `int` value) and the loop never
ends. -/
theorem RPG.battle_counterexample :
    (RPG.loadedHero.isAlive = true ∧ RPG.Goblin.ctor.isAlive = true
      ∧ RPG.loadedHero.attack > RPG.Goblin.ctor.defense
      ∧ (RPG.battle 30 RPG.loadedHero RPG.Goblin.ctor).map (fun r => (r.1.health, r.2.health))
          = some (-80, 0))
    ∧ (RPG.strongHero.isAlive = true ∧ RPG.weakGoblin.isAlive = true
      ∧ RPG.strongHero.attack > RPG.weakGoblin.defense
      ∧ ∀ fuel, RPG.battle fuel RPG.strongHero RPG.weakGoblin = none) :=
  ⟨by decide, by decide, by decide, by decide, RPG.battle_stuck⟩

/-- C21 amended: for every hero and monster that are both alive at the start
(healths and the hero's experience being `int` values), such that the hero's
attack exceeds the monster's defense by a value that fits an `int`, and such
that, if the kill makes the hero level up (experience from 70 to the largest
`int` less 30), the hero's `maxHealth` is between -20 and the largest `int`
less 20: the battle loop ends, within as many iterations as the monster has
health; at the end one of the two has health exactly 0 and neither has
negative health; and in every iteration the monster's health strictly
decreases. -/
theorem RPG.battle_terminates (hero : RPG.Character) (monster : RPG.Monster)
    (hhero : hero.isAlive = true) (hmonster : monster.isAlive = true)
    (hint : hero.health ≤ INT_MAX ∧ monster.health ≤ INT_MAX ∧ inIntRange hero.experience)
    (hatk : hero.attack > monster.defense) (hno : hero.attack - monster.defense ≤ INT_MAX)
    (hlevel : 70 ≤ hero.experience → hero.experience ≤ INT_MAX - 30 →
      -20 ≤ hero.maxHealth ∧ hero.maxHealth ≤ INT_MAX - 20) :
    (∃ hero1 monster1,
      (∀ fuel, monster.health.toNat ≤ fuel →
        RPG.battle fuel hero monster = some (hero1, monster1))
      ∧ (hero1.health = 0 ∨ monster1.health = 0) ∧ 0 ≤ hero1.health ∧ 0 ≤ monster1.health)
    ∧ (∀ (n : Nat) (h : RPG.Character) (m : RPG.Monster),
        RPG.afterRounds n hero monster = some (h, m) → (h.isAlive && m.isAlive) = true →
        (RPG.battleRound h m).2.1.health < m.health) := by
  have hh0 : 0 < hero.health := by simpa [RPG.Character.isAlive] using hhero
  have hm0 : 0 < monster.health := by simpa [RPG.Character.isAlive] using hmonster
  obtain ⟨hh1, hm1, he0, he1⟩ := hint
  have hinv : RPG.BattleInv hero monster := by
    refine ⟨by omega, hh1, hm0, hm1, hatk, hno, ?_⟩
    unfold INT_MIN at he0
    unfold INT_MAX at he1 hlevel
    unfold wrapInt
    intro hup
    have h70 : 70 ≤ hero.experience := by omega
    have h30 : hero.experience ≤ 2147483647 - 30 := by omega
    obtain ⟨l1, l2⟩ := hlevel h70 h30
    omega
  constructor
  · exact RPG.battle_ends_within monster.health.toNat hero monster hinv (by omega)
  · intro n h m hrun _
    exact (RPG.battleRound_props h m (RPG.afterRounds_inv n hero h monster m hinv hrun)).1

/-- Witness for the amended C21: the hero of `main` against the Goblin. -/
theorem RPG.battle_terminates_witness :
    (∃ hero1 monster1,
      (∀ fuel, RPG.Goblin.ctor.health.toNat ≤ fuel →
        RPG.battle fuel RPG.mainHero RPG.Goblin.ctor = some (hero1, monster1))
      ∧ (hero1.health = 0 ∨ monster1.health = 0) ∧ 0 ≤ hero1.health ∧ 0 ≤ monster1.health)
    ∧ (∀ (n : Nat) (h : RPG.Character) (m : RPG.Monster),
        RPG.afterRounds n RPG.mainHero RPG.Goblin.ctor = some (h, m) →
        (h.isAlive && m.isAlive) = true → (RPG.battleRound h m).2.1.health < m.health) :=
  RPG.battle_terminates RPG.mainHero RPG.Goblin.ctor (by decide) (by decide) (by decide)
    (by decide) (by decide) (by decide)
